import Mathlib

/-!
Speak-Smart client session controller (`static/js/main.js`).

A shallow embedding of the browser script: the module-level variables and the
DOM properties the script reads or writes form an explicit `State`; each event
listener, promise continuation and socket handler is a function on that state.
Console output is not part of the state.  ECMAScript strings are Lean strings;
ECMAScript Numbers are modelled exactly (binary64, round to nearest, ties to
even), with `toFixed`, string-to-number conversion, `*` and `toString`
following the language specification.
-/

namespace SpeakSmart

/-! ## ECMAScript Number values (IEEE-754 binary64) -/

/-- An ECMAScript Number: NaN, an infinity, or the finite value
`(-1)^negative * mantissa * 2^exponent`. -/
inductive JSNumber where
  | nan
  | infinity (negative : Bool)
  | finite (negative : Bool) (mantissa : Nat) (exponent : Int)
  deriving DecidableEq

/-- Number of binary digits of `n` (`fuel` bounds the recursion). -/
def bitLengthAux : Nat → Nat → Nat
  | 0, _ => 0
  | fuel + 1, n => if n = 0 then 0 else bitLengthAux fuel (n / 2) + 1

/-- Number of binary digits of `n`. -/
def bitLength (n : Nat) : Nat := bitLengthAux n n

/-- Round the non-negative rational `num / den` to the nearest binary64 value,
ties to even; the result carries the sign `negative`. -/
def roundToDouble (negative : Bool) (num den : Nat) : JSNumber :=
  if den = 0 then JSNumber.nan
  else if num = 0 then JSNumber.finite negative 0 0
  else
    let b0 : Int := (bitLength num : Int) - (bitLength den : Int)
    let atLeast : Bool :=
      if 0 ≤ b0 then decide (den * 2 ^ b0.toNat ≤ num) else decide (den ≤ num * 2 ^ (-b0).toNat)
    let b : Int := if atLeast then b0 else b0 - 1
    let e : Int := max (b - 52) (-1074)
    let n1 : Nat := if e < 0 then num * 2 ^ (-e).toNat else num
    let d1 : Nat := if e < 0 then den else den * 2 ^ e.toNat
    let q : Nat := n1 / d1
    let r : Nat := n1 % d1
    let m : Nat :=
      if 2 * r < d1 then q else if d1 < 2 * r then q + 1 else if q % 2 = 0 then q else q + 1
    let m2 : Nat := if m = 2 ^ 53 then 2 ^ 52 else m
    let e2 : Int := if m = 2 ^ 53 then e + 1 else e
    if 971 < e2 then JSNumber.infinity negative
    else if m2 = 0 then JSNumber.finite negative 0 0
    else JSNumber.finite negative m2 e2

/-- Numerator of the exact magnitude `mantissa * 2^exponent`. -/
def magNum (mantissa : Nat) (exponent : Int) : Nat :=
  if exponent < 0 then mantissa else mantissa * 2 ^ exponent.toNat

/-- Denominator of the exact magnitude `mantissa * 2^exponent`. -/
def magDen (exponent : Int) : Nat :=
  if exponent < 0 then 2 ^ (-exponent).toNat else 1

/-- The operator `*` on Numbers (Number::multiply). -/
def JSNumber.mul : JSNumber → JSNumber → JSNumber
  | JSNumber.nan, _ => JSNumber.nan
  | _, JSNumber.nan => JSNumber.nan
  | JSNumber.infinity a, JSNumber.infinity b => JSNumber.infinity (a != b)
  | JSNumber.infinity a, JSNumber.finite b m _ =>
      if m = 0 then JSNumber.nan else JSNumber.infinity (a != b)
  | JSNumber.finite a m _, JSNumber.infinity b =>
      if m = 0 then JSNumber.nan else JSNumber.infinity (a != b)
  | JSNumber.finite a m1 e1, JSNumber.finite b m2 e2 =>
      roundToDouble (a != b) (m1 * m2 * (magNum 1 e1 * magNum 1 e2)) (magDen e1 * magDen e2)

/-- Decimal digits of `n`, most significant first, prepended to `acc`. -/
def decimalDigitsAux : Nat → Nat → List Char → List Char
  | 0, _, acc => acc
  | fuel + 1, n, acc =>
      let acc1 := Char.ofNat (48 + n % 10) :: acc
      if n / 10 = 0 then acc1 else decimalDigitsAux fuel (n / 10) acc1

/-- Decimal representation of `n` without leading zeros (`"0"` for zero). -/
def decimalDigits (n : Nat) : List Char := decimalDigitsAux (n + 1) n []

/-- Remove trailing `'0'` characters. -/
def stripTrailingZeros (ds : List Char) : List Char :=
  (ds.reverse.dropWhile (fun c => c == '0')).reverse

/-- Least `j` in `[start, start + fuel]` with `den ≤ num * 10^j`. -/
def leadingShift : Nat → Nat → Nat → Nat → Nat
  | 0, j, _, _ => j
  | fuel + 1, j, num, den => if den ≤ num * 10 ^ j then j else leadingShift fuel (j + 1) num den

/-- The integer `p` with `10^(p-1) ≤ num/den < 10^p`, for `num/den > 0`. -/
def decimalPoint (num den : Nat) : Int :=
  if den ≤ num then ((decimalDigits (num / den)).length : Int)
  else 1 - (leadingShift 400 1 num den : Int)

/-- Search for the least number of digits `k` (from `k` upward) for which a
decimal `s * 10^(p-k)` rounds to the double `x`; returns the digits of `s`
and the exponent `n` of Number::toString. -/
def shortestAux (x : JSNumber) (num den : Nat) (p : Int) : Nat → Nat → List Char × Int
  | 0, k =>
      let t : Int := p - k
      let n1 : Nat := if t < 0 then num * 10 ^ (-t).toNat else num
      let d1 : Nat := if t < 0 then den else den * 10 ^ t.toNat
      (decimalDigits (n1 / d1), p)
  | fuel + 1, k =>
      let t : Int := p - k
      let n1 : Nat := if t < 0 then num * 10 ^ (-t).toNat else num
      let d1 : Nat := if t < 0 then den else den * 10 ^ t.toNat
      let lo : Nat := n1 / d1
      let r : Nat := n1 % d1
      let hi : Nat := lo + 1
      let cn : Nat := if t < 0 then 1 else 10 ^ t.toNat
      let cd : Nat := if t < 0 then 10 ^ (-t).toNat else 1
      let okLo : Bool := decide (roundToDouble false (lo * cn) cd = x)
      let okHi : Bool := decide (roundToDouble false (hi * cn) cd = x)
      let preferLo : Bool := decide (2 * r < d1) || (decide (2 * r = d1) && decide (lo % 2 = 0))
      let pick (s : Nat) : List Char × Int :=
        (stripTrailingZeros (decimalDigits s), t + ((decimalDigits s).length : Int))
      if okLo && (preferLo || !okHi) then pick lo
      else if okHi then pick hi
      else shortestAux x num den p fuel (k + 1)

/-- Digits and decimal exponent used by Number::toString for the positive
finite value `mantissa * 2^exponent`. -/
def shortestDigits (mantissa : Nat) (exponent : Int) : List Char × Int :=
  let num := magNum mantissa exponent
  let den := magDen exponent
  shortestAux (roundToDouble false num den) num den (decimalPoint num den) 17 1

/-- Layout of the digits `ds` with decimal exponent `n` (Number::toString,
radix 10, steps for finite non-zero values). -/
def layoutDigits (ds : List Char) (n : Int) : List Char :=
  let k : Int := (ds.length : Int)
  if k ≤ n ∧ n ≤ 21 then ds ++ List.replicate (n - k).toNat '0'
  else if 0 < n ∧ n ≤ 21 then ds.take n.toNat ++ '.' :: ds.drop n.toNat
  else if -6 < n ∧ n ≤ 0 then '0' :: '.' :: (List.replicate (-n).toNat '0' ++ ds)
  else
    let sign : Char := if n - 1 < 0 then '-' else '+'
    let ex : List Char := decimalDigits (n - 1).natAbs
    if ds.length = 1 then ds ++ 'e' :: sign :: ex
    else ds.take 1 ++ '.' :: (ds.drop 1 ++ 'e' :: sign :: ex)

/-- Number::toString with radix 10. -/
def numberToString : JSNumber → String
  | JSNumber.nan => "NaN"
  | JSNumber.infinity negative => if negative then "-Infinity" else "Infinity"
  | JSNumber.finite negative m e =>
      if m = 0 then "0"
      else
        let d := shortestDigits m e
        String.mk ((if negative then ['-'] else []) ++ layoutDigits d.1 d.2)

/-- Number.prototype.toFixed(fractionDigits). -/
def toFixed (x : JSNumber) (fractionDigits : Nat) : String :=
  match x with
  | JSNumber.nan => "NaN"
  | JSNumber.infinity negative => if negative then "-Infinity" else "Infinity"
  | JSNumber.finite negative mant e =>
      let num := magNum mant e
      let den := magDen e
      let s : List Char := if negative && decide (mant ≠ 0) then ['-'] else []
      if 10 ^ 21 * den ≤ num then String.mk s ++ numberToString (JSNumber.finite false mant e)
      else
        let n : Nat := (2 * num * 10 ^ fractionDigits + den) / (2 * den)
        let m0 : List Char := decimalDigits n
        if fractionDigits = 0 then String.mk (s ++ m0)
        else
          let m1 : List Char :=
            if m0.length ≤ fractionDigits
            then List.replicate (fractionDigits + 1 - m0.length) '0' ++ m0 else m0
          let k := m1.length
          String.mk (s ++ (m1.take (k - fractionDigits) ++ '.' :: m1.drop (k - fractionDigits)))


/-- The Number value of the integer `n` (exact below `2^53`). -/
def JSNumber.ofNat (n : Nat) : JSNumber := roundToDouble false n 1

/-- The operator `/` on Numbers (Number::divide). -/
def JSNumber.div : JSNumber → JSNumber → JSNumber
  | JSNumber.nan, _ => JSNumber.nan
  | _, JSNumber.nan => JSNumber.nan
  | JSNumber.infinity _, JSNumber.infinity _ => JSNumber.nan
  | JSNumber.infinity a, JSNumber.finite b _ _ => JSNumber.infinity (a != b)
  | JSNumber.finite a _ _, JSNumber.infinity b => JSNumber.finite (a != b) 0 0
  | JSNumber.finite a m1 e1, JSNumber.finite b m2 e2 =>
      if m2 = 0 then (if m1 = 0 then JSNumber.nan else JSNumber.infinity (a != b))
      else roundToDouble (a != b) (m1 * magNum 1 e1 * magDen e2) (m2 * magNum 1 e2 * magDen e1)

/-- The operator `%` on Numbers (Number::remainder): the result has the sign
of the dividend and is exact. -/
def JSNumber.mod : JSNumber → JSNumber → JSNumber
  | JSNumber.nan, _ => JSNumber.nan
  | _, JSNumber.nan => JSNumber.nan
  | JSNumber.infinity _, _ => JSNumber.nan
  | JSNumber.finite a m e, JSNumber.infinity _ => JSNumber.finite a m e
  | JSNumber.finite a m1 e1, JSNumber.finite _ m2 e2 =>
      if m2 = 0 then JSNumber.nan
      else if m1 = 0 then JSNumber.finite a m1 e1
      else roundToDouble a ((m1 * magNum 1 e1 * magDen e2) % (m2 * magNum 1 e2 * magDen e1))
        (magDen e1 * magDen e2)

/-- Function `Math.floor`. -/
def JSNumber.floor : JSNumber → JSNumber
  | JSNumber.nan => JSNumber.nan
  | JSNumber.infinity a => JSNumber.infinity a
  | JSNumber.finite a m e =>
      if m = 0 ∨ 0 ≤ e then JSNumber.finite a m e
      else
        let k : Nat := 2 ^ (-e).toNat
        if a then roundToDouble true ((m + k - 1) / k) 1
        else roundToDouble false (m / k) 1

/-! ## ECMAScript strings -/

/-- WhiteSpace and LineTerminator code points, the ones `trim` removes. -/
def isJSWhiteSpace (c : Char) : Bool :=
  let n := c.toNat
  n == 9 || n == 10 || n == 11 || n == 12 || n == 13 || n == 32 || n == 160 ||
  n == 5760 || (decide (8192 ≤ n) && decide (n ≤ 8202)) || n == 8232 || n == 8233 ||
  n == 8239 || n == 8287 || n == 12288 || n == 65279

/-- String.prototype.trim on the list of characters. -/
def trimChars (cs : List Char) : List Char :=
  ((cs.dropWhile isJSWhiteSpace).reverse.dropWhile isJSWhiteSpace).reverse

/-- String.prototype.trim. -/
def jsTrim (s : String) : String := String.mk (trimChars s.data)

/-- String.prototype.padStart(maxLength, fillString) on lists of characters. -/
def padStart (s : List Char) (maxLength : Nat) (fillString : List Char) : List Char :=
  if maxLength ≤ s.length then s
  else if fillString.isEmpty then s
  else
    let fillLen := maxLength - s.length
    ((List.replicate fillLen fillString).flatten.take fillLen) ++ s

/-- Value of a digit character in the given radix, if it is one. -/
def digitValue (radix : Nat) (c : Char) : Option Nat :=
  let n := c.toNat
  let v : Nat :=
    if 48 ≤ n ∧ n ≤ 57 then n - 48
    else if 97 ≤ n ∧ n ≤ 122 then n - 87
    else if 65 ≤ n ∧ n ≤ 90 then n - 55
    else radix
  if v < radix then some v else none

/-- Value of a non-empty run of digits in the given radix. -/
def digitsValue (radix : Nat) : List Char → Nat → Option Nat
  | [], acc => some acc
  | c :: cs, acc =>
      match digitValue radix c with
      | some v => digitsValue radix cs (acc * radix + v)
      | none => none

/-- Longest prefix of decimal digits, and the rest. -/
def spanDigits (cs : List Char) : List Char × List Char :=
  cs.span (fun c => (digitValue 10 c).isSome)

/-- ExponentPart of a StrDecimalLiteral: the signed exponent, `0` when absent,
`none` when malformed. -/
def parseExponent (cs : List Char) : Option Int :=
  match cs with
  | [] => some 0
  | c :: rest =>
      if c = 'e' ∨ c = 'E' then
        let signed : Bool × List Char :=
          match rest with
          | '-' :: r => (true, r)
          | '+' :: r => (false, r)
          | r => (false, r)
        if signed.2.isEmpty then none
        else
          match digitsValue 10 signed.2 0 with
          | some v => some (if signed.1 then -(v : Int) else (v : Int))
          | none => none
      else none

/-- StrUnsignedDecimalLiteral without `Infinity`: the mathematical value as a
fraction `num / den`, `none` when the text is not such a literal. -/
def parseDecimal (cs : List Char) : Option (Nat × Nat) :=
  let ip := spanDigits cs
  let fp : List Char × List Char :=
    match ip.2 with
    | '.' :: r => spanDigits r
    | r => ([], r)
  if ip.1.isEmpty ∧ fp.1.isEmpty then none
  else
    match digitsValue 10 (ip.1 ++ fp.1) 0, parseExponent fp.2 with
    | some v, some ex =>
        let t : Int := ex - (fp.1.length : Int)
        if t < 0 then some (v, 10 ^ (-t).toNat) else some (v * 10 ^ t.toNat, 1)
    | _, _ => none

/-- NonDecimalIntegerLiteral (`0x`, `0o`, `0b` forms). -/
def parseNonDecimal (cs : List Char) : Option Nat :=
  match cs with
  | '0' :: p :: ds =>
      if ds.isEmpty then none
      else if p = 'x' ∨ p = 'X' then digitsValue 16 ds 0
      else if p = 'o' ∨ p = 'O' then digitsValue 8 ds 0
      else if p = 'b' ∨ p = 'B' then digitsValue 2 ds 0
      else none
  | _ => none

/-- StringToNumber: the conversion applied to a string operand of `*`. -/
def stringToNumber (s : String) : JSNumber :=
  let cs := trimChars s.data
  if cs.isEmpty then JSNumber.finite false 0 0
  else
    match parseNonDecimal cs with
    | some n => roundToDouble false n 1
    | none =>
        let signed : Bool × List Char :=
          match cs with
          | '-' :: r => (true, r)
          | '+' :: r => (false, r)
          | r => (false, r)
        if signed.2 = "Infinity".data then JSNumber.infinity signed.1
        else
          match parseDecimal signed.2 with
          | some f => roundToDouble signed.1 f.1 f.2
          | none => JSNumber.nan

/-! ## Session state -/

/-- Properties of the page elements the script reads or writes. -/
structure Dom where
  /-- Property `startButton.disabled`. -/
  startDisabled : Bool
  /-- Property `stopButton.disabled`. -/
  stopDisabled : Bool
  /-- Property `filename.value`. -/
  filenameValue : String
  /-- Property `filename.textContent`. -/
  filenameTextContent : String
  /-- Property `phrases.value`. -/
  phrasesValue : String
  /-- Property `language.value`. -/
  languageValue : String
  /-- Property `altLanguage.value`. -/
  altLanguageValue : String
  /-- Property `transcriptDisplay.textContent`. -/
  transcriptText : String
  /-- Property `confidenceDisplay.textContent`. -/
  confidenceText : String
  /-- Property `recordingStatus.textContent`. -/
  recordingStatusText : String
  /-- Text content of the element `recording-time`. -/
  recordingTimeText : String
  /-- Text content of the element `read-transcript`. -/
  readTranscriptText : String
  /-- Text of the `li` children of the element `grammar-feedback`, in order. -/
  grammarItems : List String
  /-- Style property `readTranscriptSection.style.display`. -/
  readTranscriptSectionDisplay : String
  /-- Style property `grammarFeedbackSection.style.display`. -/
  grammarFeedbackSectionDisplay : String
  /-- Whether the feedback modal is shown. -/
  modalShown : Bool
  deriving DecidableEq

/-- A request passed to `fetch`, with the fields of its JSON body. -/
inductive Request where
  | start_recording (filename phrases language_code alternative_language_code : String)
  | stop_recording
  | feedback (transcript language_code : String)
  | retry
  deriving DecidableEq

/-- One entry of `suggestions`. -/
structure Suggestion where
  value : String
  deriving DecidableEq

/-- One entry of `grammar_issues`. -/
structure Issue where
  message : String
  suggestions : List Suggestion
  deriving DecidableEq

/-- The fields of a JSON response body that the script reads; `none` is an
absent or `null` field. -/
structure ResponseData where
  gpt_text : Option String
  grammar_issues : Option (List Issue)
  deriving DecidableEq

/-- How an outstanding `fetch` chain settles: the body parsed as JSON (the
second `then` runs), or a failure (the `catch` runs). -/
inductive Outcome where
  | resolved (data : ResponseData)
  | rejected
  deriving DecidableEq

/-- Module-level variables of the script together with the page, the
window's active interval timers, outstanding requests and raised alerts. -/
structure State where
  isRecording : Bool
  /-- Variable `timerInterval`: `none` is `null`. -/
  timerInterval : Option Nat
  timeElapsed : Nat
  transcriptHistory : String
  dom : Dom
  /-- Handles of the interval timers currently scheduled. -/
  intervals : List Nat
  /-- The handle the next `setInterval` returns. -/
  nextHandle : Nat
  /-- Requests sent and not yet settled, oldest first. -/
  pending : List Request
  /-- Messages shown with `alert`, oldest first. -/
  alerts : List String
  deriving DecidableEq

/-- State right after the script has run on a page whose elements are `dom`. -/
def pageLoad (dom : Dom) : State :=
  { isRecording := false, timerInterval := none, timeElapsed := 0, transcriptHistory := "",
    dom := dom, intervals := [], nextHandle := 1, pending := [], alerts := [] }

/-! ## Timer -/

/-- Function `formatTime(seconds)`, on Numbers as in the script. -/
def formatTime (seconds : JSNumber) : String :=
  let mins := (seconds.div (JSNumber.finite false 60 0)).floor
  let secs := seconds.mod (JSNumber.finite false 60 0)
  String.mk (padStart (numberToString mins).data 2 ['0'] ++
    ':' :: padStart (numberToString secs).data 2 ['0'])

/-- Window method `clearInterval(handle)`. -/
def clearInterval (s : State) (handle : Option Nat) : State :=
  match handle with
  | none => s
  | some h => { s with intervals := s.intervals.filter (fun i => i != h) }

/-- Window method `setInterval(callback, 1000)`: schedules a timer under a fresh handle. -/
def setInterval (s : State) : Nat × State :=
  (s.nextHandle, { s with intervals := s.intervals ++ [s.nextHandle], nextHandle := s.nextHandle + 1 })

/-- The callback given to `setInterval` in `startTimer`. -/
def intervalCallback (s : State) : State :=
  let t := s.timeElapsed + 1
  { s with timeElapsed := t,
           dom := { s.dom with recordingTimeText := "Recording Time: " ++ formatTime (JSNumber.ofNat t) } }

/-- Function `startTimer()`. -/
def startTimer (s : State) : State :=
  let s1 := { s with timeElapsed := 0 }
  let s2 := clearInterval s1 s1.timerInterval
  let r := setInterval s2
  { r.2 with timerInterval := some r.1 }

/-- Function `stopTimer()`. -/
def stopTimer (s : State) : State :=
  let s1 := clearInterval s s.timerInterval
  { s1 with dom := { s1.dom with
      recordingTimeText := "Recording Time: " ++ formatTime (JSNumber.ofNat s1.timeElapsed) } }

/-! ## Listeners -/

/-- Click listener of `startButton`. -/
def startButtonClick (s : State) : State :=
  let trimmedFilename := jsTrim s.dom.filenameValue
  if trimmedFilename = "" then
    { s with alerts := s.alerts ++ ["Please enter a valid filename."] }
  else
    let s1 := { s with pending := s.pending ++
      [Request.start_recording s.dom.filenameValue s.dom.phrasesValue s.dom.languageValue
        s.dom.altLanguageValue] }
    let s2 := { s1 with dom := { s1.dom with recordingStatusText := "Status: Recording..." } }
    startTimer s2

/-- Click listener of `stopButton`. -/
def stopButtonClick (s : State) : State :=
  let s1 := { s with pending := s.pending ++ [Request.stop_recording] }
  let s2 := { s1 with dom := { s1.dom with recordingStatusText := "Status: Stopped" } }
  let s3 := stopTimer s2
  { s3 with dom := { s3.dom with modalShown := true } }

/-- Click listener of `readyButton`. -/
def readyButtonClick (s : State) : State :=
  let language := s.dom.languageValue
  let transcriptText := s.dom.transcriptText
  { s with pending := s.pending ++ [Request.feedback transcriptText language] }

/-- Click listener of `retryButton`. -/
def retryButtonClick (s : State) : State :=
  { s with pending := s.pending ++ [Request.retry] }

/-- Function `resetUI()`. -/
def resetUI (s : State) : State :=
  { s with dom := { s.dom with
      transcriptText := "Transcript will appear here...",
      confidenceText := "This will be the degree of accuracy of the speech recognizer's response",
      recordingStatusText := "Status: Not recording",
      readTranscriptSectionDisplay := "none",
      grammarFeedbackSectionDisplay := "none",
      filenameTextContent := "" } }

/-- Text of the list item `showFeedback` builds for one issue. -/
def issueText (issue : Issue) : String :=
  issue.message ++ " - Suggested: " ++
    String.intercalate ", " (issue.suggestions.map (fun suggestion => suggestion.value))

/-- Function `showFeedback(data)`. -/
def showFeedback (data : ResponseData) (s : State) : State :=
  let text : String :=
    match data.gpt_text with
    | some t => if t = "" then "No improvements available." else t
    | none => "No improvements available."
  let s1 := { s with dom := { s.dom with readTranscriptText := text } }
  let s2 := { s1 with dom := { s1.dom with grammarItems := [] } }
  let s3 := ((data.grammar_issues).getD []).foldl
    (fun st issue => { st with dom := { st.dom with
      grammarItems := st.dom.grammarItems ++ [issueText issue] } }) s2
  { s3 with dom := { s3.dom with
      readTranscriptSectionDisplay := "block",
      grammarFeedbackSectionDisplay := "block" } }

/-- Continuation of the `fetch` chain of request `r` when it settles as `o`. -/
def settleRequest (r : Request) (o : Outcome) (s : State) : State :=
  match o with
  | Outcome.rejected => s
  | Outcome.resolved data =>
      match r with
      | Request.start_recording _ _ _ _ =>
          { s with isRecording := true,
                   dom := { s.dom with startDisabled := true, stopDisabled := false } }
      | Request.stop_recording =>
          { s with isRecording := false,
                   dom := { s.dom with startDisabled := false, stopDisabled := true } }
      | Request.feedback _ _ =>
          showFeedback data { s with dom := { s.dom with modalShown := false } }
      | Request.retry =>
          let s1 := resetUI s
          { s1 with dom := { s1.dom with modalShown := false } }

/-- Socket handler of `transcript_update`. -/
def onTranscriptUpdate (transcript : String) (is_final : Bool) (s : State) : State :=
  if is_final then
    let s1 := { s with transcriptHistory := s.transcriptHistory ++ (transcript ++ " ") }
    { s1 with dom := { s1.dom with transcriptText := s1.transcriptHistory } }
  else
    { s with dom := { s.dom with transcriptText := s.transcriptHistory ++ transcript } }

/-- Socket handler of `confidence_update`. -/
def onConfidenceUpdate (confidence : JSNumber) (s : State) : State :=
  let percent : JSNumber := (stringToNumber (toFixed confidence 2)).mul (JSNumber.finite false 100 0)
  let text : String := "Confidence: " ++ numberToString percent ++ "%"
  { s with dom := { s.dom with confidenceText := text } }

/-! ## Event loop -/

/-- The text inputs of the page. -/
inductive InputField where
  | filename
  | phrases
  | language
  | altLanguage
  deriving DecidableEq

/-- One turn of the event loop. -/
inductive Event where
  | startClick
  | stopClick
  | readyClick
  | retryClick
  /-- The `i`-th outstanding request settles. -/
  | settle (i : Nat) (o : Outcome)
  /-- The interval timer with handle `h` fires. -/
  | intervalFire (h : Nat)
  | transcript_update (transcript : String) (is_final : Bool)
  | confidence_update (confidence : JSNumber)
  /-- The user edits an input. -/
  | edit (field : InputField) (value : String)

/-- Effect of one event on the state. -/
def step (s : State) (e : Event) : State :=
  match e with
  | Event.startClick => startButtonClick s
  | Event.stopClick => stopButtonClick s
  | Event.readyClick => readyButtonClick s
  | Event.retryClick => retryButtonClick s
  | Event.settle i o =>
      match s.pending.get? i with
      | some r => settleRequest r o { s with pending := s.pending.eraseIdx i }
      | none => s
  | Event.intervalFire h => if h ∈ s.intervals then intervalCallback s else s
  | Event.transcript_update transcript is_final => onTranscriptUpdate transcript is_final s
  | Event.confidence_update confidence => onConfidenceUpdate confidence s
  | Event.edit field value =>
      match field with
      | InputField.filename => { s with dom := { s.dom with filenameValue := value } }
      | InputField.phrases => { s with dom := { s.dom with phrasesValue := value } }
      | InputField.language => { s with dom := { s.dom with languageValue := value } }
      | InputField.altLanguage => { s with dom := { s.dom with altLanguageValue := value } }

/-- Effect of a sequence of events, applied in order. -/
def run (s : State) (es : List Event) : State := es.foldl step s

/-- One second of simulated time: every scheduled interval timer fires once. -/
def advanceSecond (s : State) : State :=
  s.intervals.foldl (fun st h => step st (Event.intervalFire h)) s

/-- A page whose start control is enabled and stop control disabled, with
empty inputs and no text. -/
def blankDom : Dom :=
  { startDisabled := false, stopDisabled := true, filenameValue := "", filenameTextContent := "",
    phrasesValue := "", languageValue := "", altLanguageValue := "", transcriptText := "",
    confidenceText := "", recordingStatusText := "", recordingTimeText := "",
    readTranscriptText := "", grammarItems := [], readTranscriptSectionDisplay := "",
    grammarFeedbackSectionDisplay := "", modalShown := false }

/-- Simulated time: `j` seconds pass, one after the other. -/
def advanceSeconds : Nat → State → State
  | 0, s => s
  | j + 1, s => advanceSecond (advanceSeconds j s)

/-! ## Properties used in the statements -/

/-- Every scheduled interval timer is the one whose handle `timerInterval`
holds, and no handle is scheduled twice. -/
def TimerInv (s : State) : Prop :=
  (∀ h ∈ s.intervals, s.timerInterval = some h) ∧ s.intervals.Nodup

/-- The event is an accepted response to an outstanding `/stop_recording` request. -/
def acceptsStop (s : State) (e : Event) : Bool :=
  match e with
  | Event.settle i (Outcome.resolved _) => decide (s.pending.get? i = some Request.stop_recording)
  | _ => false

/-- No event of the sequence, run from `s`, is an accepted stop response. -/
def noStopAccepted : State → List Event → Bool
  | _, [] => true
  | s, e :: es => !acceptsStop s e && noStopAccepted (step s e) es

/-- The character of the decimal digit `d`. -/
def digitChar (d : Nat) : Char := Char.ofNat (48 + d)

/-- Value of a string of decimal digits, most significant first. -/
def decimalValue (ds : List Char) : Nat :=
  ds.foldl (fun acc c => acc * 10 + (c.toNat - 48)) 0

/-- The digits `ds` are the decimal of `n`: not empty, all digits, no leading
zero except for `"0"` itself, and of value `n`. -/
def IsDecimalOf (ds : List Char) (n : Nat) : Prop :=
  ds ≠ [] ∧ (∀ c ∈ ds, c.isDigit = true) ∧ (ds.head? = some '0' → ds = ['0']) ∧
    decimalValue ds = n

/-- The text `ds` left-padded with `'0'` to at least `width` characters. -/
def leftPadZeros (ds : List Char) (width : Nat) : List Char :=
  List.replicate (width - ds.length) '0' ++ ds

/-! ## Sequences of events -/

theorem run_nil (s : State) : run s [] = s := rfl

theorem run_cons (s : State) (e : Event) (es : List Event) :
    run s (e :: es) = run (step s e) es := rfl

theorem run_append (s : State) (es fs : List Event) :
    run s (es ++ fs) = run (run s es) fs := by
  simp [run, List.foldl_append]

theorem join_cons (a : String) (l : List String) : String.join (a :: l) = a ++ String.join l := by
  apply String.ext
  simp [String.data_join, String.data_append]

/-! ## Transcript accumulation -/

/-- The issue list built by `showFeedback` leaves everything but the page untouched. -/
theorem foldl_items_fields (issues : List Issue) (s : State) :
    let r := issues.foldl
      (fun st issue => { st with dom := { st.dom with
        grammarItems := st.dom.grammarItems ++ [issueText issue] } }) s
    r.transcriptHistory = s.transcriptHistory ∧ r.isRecording = s.isRecording ∧
    r.timerInterval = s.timerInterval ∧ r.timeElapsed = s.timeElapsed ∧
    r.intervals = s.intervals ∧ r.nextHandle = s.nextHandle ∧ r.pending = s.pending ∧
    r.alerts = s.alerts ∧ r.dom.startDisabled = s.dom.startDisabled ∧
    r.dom.stopDisabled = s.dom.stopDisabled ∧
    r.dom.grammarItems = s.dom.grammarItems ++ issues.map issueText ∧
    r.dom.readTranscriptText = s.dom.readTranscriptText ∧
    r.dom.transcriptText = s.dom.transcriptText := by
  induction issues generalizing s with
  | nil => simp
  | cons i is ih =>
    have h := ih { s with dom := { s.dom with grammarItems := s.dom.grammarItems ++ [issueText i] } }
    simp only [List.foldl_cons, List.map_cons] at h ⊢
    simp only [h, List.append_assoc, List.singleton_append, and_self]

/-- Only a final `transcript_update` changes the accumulator. -/
theorem transcriptHistory_step (s : State) (e : Event) :
    (step s e).transcriptHistory =
      match e with
      | Event.transcript_update t true => s.transcriptHistory ++ (t ++ " ")
      | _ => s.transcriptHistory := by
  cases e with
  | startClick =>
    simp only [step, startButtonClick, startTimer, setInterval, clearInterval]
    split <;> [rfl; (split <;> rfl)]
  | stopClick =>
    simp only [step, stopButtonClick, stopTimer, clearInterval]
    split <;> rfl
  | readyClick => rfl
  | retryClick => rfl
  | settle i o =>
    simp only [step]
    cases h : s.pending.get? i with
    | none => rfl
    | some r =>
      cases o with
      | rejected => rfl
      | resolved d =>
        cases r with
        | start_recording _ _ _ _ => rfl
        | stop_recording => rfl
        | feedback _ _ =>
          simp only [settleRequest, showFeedback]
          exact (foldl_items_fields _ _).1
        | retry => rfl
  | intervalFire h =>
    simp only [step]
    split <;> rfl
  | transcript_update t f => cases f <;> rfl
  | confidence_update c => rfl
  | edit f v => cases f <;> rfl

/-- From any state, a run of `transcript_update` events appends to the
accumulator the final fragments, each followed by a space, in order. -/
theorem transcriptHistory_run_updates (s : State) (evs : List (String × Bool)) :
    (run s (evs.map (fun e => Event.transcript_update e.1 e.2))).transcriptHistory =
      s.transcriptHistory ++
        String.join ((evs.filter (fun e => e.2)).map (fun e => e.1 ++ " ")) := by
  induction evs generalizing s with
  | nil => simp [run, String.join]
  | cons e evs ih =>
    obtain ⟨t, f⟩ := e
    rw [List.map_cons, run_cons, ih, transcriptHistory_step]
    cases f
    · simp
    · simp [join_cons, String.append_assoc]

/-- C1: starting from page load, after any sequence of `transcript_update`
events the accumulator `transcriptHistory` is the concatenation, in delivery
order, of exactly the fragments with `is_final` true, each followed by one
space; a non-final fragment never changes the accumulator; and after
("a",false), ("a",true), ("b",false) the accumulator is "a ". -/
theorem transcriptHistory_accumulates_final_fragments (dom : Dom) (evs : List (String × Bool)) :
    (run (pageLoad dom) (evs.map (fun e => Event.transcript_update e.1 e.2))).transcriptHistory =
        String.join ((evs.filter (fun e => e.2)).map (fun e => e.1 ++ " ")) ∧
    (∀ (s : State) (t : String),
        (step s (Event.transcript_update t false)).transcriptHistory = s.transcriptHistory) ∧
    (run (pageLoad dom) [Event.transcript_update "a" false, Event.transcript_update "a" true,
        Event.transcript_update "b" false]).transcriptHistory = "a " := by
  refine ⟨?_, fun s t => rfl, rfl⟩
  rw [transcriptHistory_run_updates]
  simp [pageLoad]

/-- C2: for every state and every `transcript_update` event, a final fragment
sets the accumulator to old accumulator + fragment + " " and displays the new
accumulator; a non-final fragment displays old accumulator + fragment and
leaves the accumulator unchanged; from page load the events ("a",false),
("a",true), ("b",false) display "a", then "a ", then "a b". -/
theorem transcript_display_after_update (s : State) (fragment : String) (dom : Dom) :
    ((step s (Event.transcript_update fragment true)).transcriptHistory =
        s.transcriptHistory ++ fragment ++ " " ∧
      (step s (Event.transcript_update fragment true)).dom.transcriptText =
        (step s (Event.transcript_update fragment true)).transcriptHistory) ∧
    ((step s (Event.transcript_update fragment false)).dom.transcriptText =
        s.transcriptHistory ++ fragment ∧
      (step s (Event.transcript_update fragment false)).transcriptHistory =
        s.transcriptHistory) ∧
    ((run (pageLoad dom) [Event.transcript_update "a" false]).dom.transcriptText = "a" ∧
      (run (pageLoad dom) [Event.transcript_update "a" false,
        Event.transcript_update "a" true]).dom.transcriptText = "a " ∧
      (run (pageLoad dom) [Event.transcript_update "a" false, Event.transcript_update "a" true,
        Event.transcript_update "b" false]).dom.transcriptText = "a b") := by
  refine ⟨⟨?_, rfl⟩, ⟨rfl, rfl⟩, rfl, rfl, rfl⟩
  show s.transcriptHistory ++ (fragment ++ " ") = s.transcriptHistory ++ fragment ++ " "
  rw [String.append_assoc]

/-- C3 (evaluation of the code): a retry click followed by its accepted
response leaves `transcriptHistory` as it was, so the next final fragment "x"
is displayed after the earlier transcript; with the earlier final fragment "a"
the display is "a x " and not "x ". -/
theorem retry_keeps_transcriptHistory (s : State) (data : ResponseData) (dom : Dom) :
    (run s [Event.retryClick, Event.settle s.pending.length (Outcome.resolved data)]).transcriptHistory
        = s.transcriptHistory ∧
    (run s [Event.retryClick, Event.settle s.pending.length (Outcome.resolved data),
        Event.transcript_update "x" true]).dom.transcriptText = s.transcriptHistory ++ "x " ∧
    (run (pageLoad dom) [Event.transcript_update "a" true, Event.retryClick,
        Event.settle 0 (Outcome.resolved data)]).dom.transcriptText =
          "Transcript will appear here..." ∧
    (run (pageLoad dom) [Event.transcript_update "a" true, Event.retryClick,
        Event.settle 0 (Outcome.resolved data),
        Event.transcript_update "x" true]).dom.transcriptText = "a x " ∧
    "a x " ≠ "x " := by
  have h : (run s [Event.retryClick,
      Event.settle s.pending.length (Outcome.resolved data)]).transcriptHistory
        = s.transcriptHistory := by
    simp only [run, List.foldl_cons, List.foldl_nil, transcriptHistory_step]
  refine ⟨h, ?_, rfl, rfl, by decide⟩
  have h2 := transcriptHistory_step
    (run s [Event.retryClick, Event.settle s.pending.length (Outcome.resolved data)])
    (Event.transcript_update "x" true)
  simp only [h] at h2
  rw [show [Event.retryClick, Event.settle s.pending.length (Outcome.resolved data),
        Event.transcript_update "x" true] = [Event.retryClick,
        Event.settle s.pending.length (Outcome.resolved data)] ++
        [Event.transcript_update "x" true] from rfl, run_append]
  rw [run_cons, run_nil]
  have h3 : "x" ++ " " = "x " := by decide
  rw [h3] at h2
  rw [← h2]
  rfl

/-! ## Confidence display -/

/-- C4 (evaluation of the code): the handler formats the raw fraction with
`toFixed(2)` first and multiplies the resulting string by 100 afterwards; for
the confidence 0.8765 the intermediate string is "0.88" and the displayed text
is "Confidence: 88%", not "Confidence: 87.65%"; for 0.57 the displayed text is
"Confidence: 56.99999999999999%". -/
theorem confidence_display_rounds_before_scaling (s : State) :
    toFixed (roundToDouble false 8765 10000) 2 = "0.88" ∧
    (step s (Event.confidence_update (roundToDouble false 8765 10000))).dom.confidenceText =
      "Confidence: 88%" ∧
    "Confidence: 88%" ≠ "Confidence: 87.65%" ∧
    (step s (Event.confidence_update (roundToDouble false 57 100))).dom.confidenceText =
      "Confidence: 56.99999999999999%" := by
  refine ⟨by decide, ?_, by decide, ?_⟩
  · show "Confidence: " ++ numberToString ((stringToNumber
      (toFixed (roundToDouble false 8765 10000) 2)).mul (JSNumber.finite false 100 0)) ++ "%" = _
    decide
  · show "Confidence: " ++ numberToString ((stringToNumber
      (toFixed (roundToDouble false 57 100) 2)).mul (JSNumber.finite false 100 0)) ++ "%" = _
    decide!

/-! ## Start command -/

theorem trimChars_of_all_whitespace (cs : List Char)
    (h : ∀ c ∈ cs, isJSWhiteSpace c = true) : trimChars cs = [] := by
  have h1 : cs.dropWhile isJSWhiteSpace = [] := List.dropWhile_eq_nil_iff.mpr h
  simp [trimChars, h1]

/-- C5: when the filename input is empty or holds only whitespace, a start
click sends no request and changes nothing but the list of raised alerts:
recording flag, timer handle, scheduled timers, elapsed time, the whole page
(status label and button enablement included) and the transcript accumulator
are as before, and the validation alert is raised. -/
theorem start_click_blank_filename_is_noop (s : State)
    (h : ∀ c ∈ s.dom.filenameValue.data, isJSWhiteSpace c = true) :
    step s Event.startClick = { s with alerts := s.alerts ++ ["Please enter a valid filename."] } ∧
    (step s Event.startClick).pending = s.pending ∧
    (step s Event.startClick).isRecording = s.isRecording ∧
    (step s Event.startClick).timerInterval = s.timerInterval ∧
    (step s Event.startClick).intervals = s.intervals ∧
    (step s Event.startClick).timeElapsed = s.timeElapsed ∧
    (step s Event.startClick).dom = s.dom ∧
    (step s Event.startClick).transcriptHistory = s.transcriptHistory := by
  have h1 : jsTrim s.dom.filenameValue = "" := by
    simp only [jsTrim, trimChars_of_all_whitespace _ h]
  have h2 : step s Event.startClick =
      { s with alerts := s.alerts ++ ["Please enter a valid filename."] } := by
    simp only [step, startButtonClick, h1, if_true]
  rw [h2]
  exact ⟨rfl, rfl, rfl, rfl, rfl, rfl, rfl, rfl⟩

/-- C5 at a filename of two spaces and a tab, in a recording session. -/
theorem start_click_blank_filename_is_noop_witness :
    step { pageLoad { blankDom with filenameValue := "  \t" } with
        isRecording := true, timerInterval := some 1, intervals := [1], nextHandle := 2,
        timeElapsed := 7, transcriptHistory := "a " } Event.startClick =
      { pageLoad { blankDom with filenameValue := "  \t" } with
        isRecording := true, timerInterval := some 1, intervals := [1], nextHandle := 2,
        timeElapsed := 7, transcriptHistory := "a ",
        alerts := ["Please enter a valid filename."] } :=
  (start_click_blank_filename_is_noop
    { pageLoad { blankDom with filenameValue := "  \t" } with
        isRecording := true, timerInterval := some 1, intervals := [1], nextHandle := 2,
        timeElapsed := 7, transcriptHistory := "a " } (by decide)).1

/-- C6: when the trimmed filename is not empty, a start click sends exactly
one `/start_recording` request, whose `filename` is the input's value as
typed and whose other fields are the phrases, language and alternative
language inputs; the click itself leaves the recording flag and both buttons
as they were; the accepted response sets the recording flag, disables start
and enables stop; a failed response changes none of the three. -/
theorem start_click_sends_one_request (s : State) (h : jsTrim s.dom.filenameValue ≠ "") :
    (step s Event.startClick).pending = s.pending ++
      [Request.start_recording s.dom.filenameValue s.dom.phrasesValue s.dom.languageValue
        s.dom.altLanguageValue] ∧
    ((step s Event.startClick).isRecording = s.isRecording ∧
      (step s Event.startClick).dom.startDisabled = s.dom.startDisabled ∧
      (step s Event.startClick).dom.stopDisabled = s.dom.stopDisabled) ∧
    (∀ data : ResponseData,
      (run s [Event.startClick,
          Event.settle s.pending.length (Outcome.resolved data)]).isRecording = true ∧
      (run s [Event.startClick,
          Event.settle s.pending.length (Outcome.resolved data)]).dom.startDisabled = true ∧
      (run s [Event.startClick,
          Event.settle s.pending.length (Outcome.resolved data)]).dom.stopDisabled = false ∧
      (run s [Event.startClick,
          Event.settle s.pending.length (Outcome.resolved data)]).pending = s.pending) ∧
    ((run s [Event.startClick, Event.settle s.pending.length Outcome.rejected]).isRecording
        = s.isRecording ∧
      (run s [Event.startClick, Event.settle s.pending.length Outcome.rejected]).dom.startDisabled
        = s.dom.startDisabled ∧
      (run s [Event.startClick, Event.settle s.pending.length Outcome.rejected]).dom.stopDisabled
        = s.dom.stopDisabled ∧
      (run s [Event.startClick, Event.settle s.pending.length Outcome.rejected]).pending
        = s.pending) := by
  have hs : step s Event.startClick = startTimer
      { s with
        pending := s.pending ++ [Request.start_recording s.dom.filenameValue s.dom.phrasesValue
          s.dom.languageValue s.dom.altLanguageValue],
        dom := { s.dom with recordingStatusText := "Status: Recording..." } } := by
    simp only [step, startButtonClick, h, if_false]
  have hp : (step s Event.startClick).pending = s.pending ++
      [Request.start_recording s.dom.filenameValue s.dom.phrasesValue s.dom.languageValue
        s.dom.altLanguageValue] := by
    rw [hs]; simp only [startTimer, setInterval, clearInterval]; split <;> rfl
  have hr : (step s Event.startClick).isRecording = s.isRecording := by
    rw [hs]; simp only [startTimer, setInterval, clearInterval]; split <;> rfl
  have hd1 : (step s Event.startClick).dom.startDisabled = s.dom.startDisabled := by
    rw [hs]; simp only [startTimer, setInterval, clearInterval]; split <;> rfl
  have hd2 : (step s Event.startClick).dom.stopDisabled = s.dom.stopDisabled := by
    rw [hs]; simp only [startTimer, setInterval, clearInterval]; split <;> rfl
  have hget : (step s Event.startClick).pending.get? s.pending.length =
      some (Request.start_recording s.dom.filenameValue s.dom.phrasesValue s.dom.languageValue
        s.dom.altLanguageValue) := by
    rw [hp]; simp
  have herase : (step s Event.startClick).pending.eraseIdx s.pending.length = s.pending := by
    rw [hp]; simp [List.eraseIdx_append_of_length_le]
  refine ⟨hp, ⟨hr, hd1, hd2⟩, fun data => ?_, ?_⟩
  · simp only [run, List.foldl_cons, List.foldl_nil]
    generalize step s Event.startClick = s1 at hget herase
    simp only [step, hget, settleRequest, herase, and_self]
  · simp only [run, List.foldl_cons, List.foldl_nil]
    generalize step s Event.startClick = s1 at hget herase hr hd1 hd2
    simp only [step, hget, settleRequest, herase, hr, hd1, hd2, and_self]

/-- C6 at the filename " take 1" typed into a freshly loaded page. -/
theorem start_click_sends_one_request_witness :
    (step (pageLoad { blankDom with filenameValue := " take 1", languageValue := "en-US" })
        Event.startClick).pending =
      [Request.start_recording " take 1" "" "en-US" ""] :=
  (start_click_sends_one_request
    (pageLoad { blankDom with filenameValue := " take 1", languageValue := "en-US" })
    (by decide)).1

/-! ## Interval timers -/

theorem startTimer_timers (s : State) (hinv : TimerInv s) :
    (startTimer s).intervals = [s.nextHandle] ∧
    (startTimer s).timerInterval = some s.nextHandle ∧
    (startTimer s).timeElapsed = 0 ∧ (startTimer s).dom = s.dom := by
  obtain ⟨h1, _⟩ := hinv
  cases ht : s.timerInterval with
  | none =>
    have hnil : s.intervals = [] := by
      cases hi : s.intervals with
      | nil => rfl
      | cons a l =>
        have := h1 a (by simp [hi])
        simp [ht] at this
    simp [startTimer, setInterval, clearInterval, ht, hnil]
  | some t =>
    have hnil : s.intervals.filter (fun i => i != t) = [] := by
      rw [List.filter_eq_nil_iff]
      intro a ha
      have := h1 a ha
      rw [ht] at this
      simp at this
      simp [this]
    simp [startTimer, setInterval, clearInterval, ht, hnil]

theorem startButtonClick_timers (s : State) (hinv : TimerInv s) :
    TimerInv (startButtonClick s) := by
  unfold startButtonClick
  simp only
  split
  · exact hinv
  · have h := startTimer_timers
      { s with
        pending := s.pending ++ [Request.start_recording s.dom.filenameValue s.dom.phrasesValue
          s.dom.languageValue s.dom.altLanguageValue],
        dom := { s.dom with recordingStatusText := "Status: Recording..." } } hinv
    constructor
    · intro a ha
      rw [h.1] at ha
      rw [h.2.1]
      simp at ha
      simp [ha]
    · rw [h.1]
      simp

theorem stopButtonClick_timers (s : State) (hinv : TimerInv s) :
    (stopButtonClick s).intervals = [] ∧ (stopButtonClick s).timerInterval = s.timerInterval ∧
    (stopButtonClick s).timeElapsed = s.timeElapsed := by
  obtain ⟨h1, _⟩ := hinv
  cases ht : s.timerInterval with
  | none =>
    have hnil : s.intervals = [] := by
      cases hi : s.intervals with
      | nil => rfl
      | cons a l =>
        have := h1 a (by simp [hi])
        simp [ht] at this
    simp [stopButtonClick, stopTimer, clearInterval, ht, hnil]
  | some t =>
    have hnil : s.intervals.filter (fun i => i != t) = [] := by
      rw [List.filter_eq_nil_iff]
      intro a ha
      have := h1 a ha
      rw [ht] at this
      simp at this
      simp [this]
    simp [stopButtonClick, stopTimer, clearInterval, ht, hnil]

/-- Events other than start and stop clicks leave the timers alone. -/
theorem timers_step (s : State) (e : Event) (h1 : e ≠ Event.startClick)
    (h2 : e ≠ Event.stopClick) :
    (step s e).intervals = s.intervals ∧ (step s e).timerInterval = s.timerInterval := by
  cases e with
  | startClick => exact absurd rfl h1
  | stopClick => exact absurd rfl h2
  | readyClick => exact ⟨rfl, rfl⟩
  | retryClick => exact ⟨rfl, rfl⟩
  | settle i o =>
    simp only [step]
    cases h : s.pending.get? i with
    | none => exact ⟨rfl, rfl⟩
    | some r =>
      cases o with
      | rejected => exact ⟨rfl, rfl⟩
      | resolved d =>
        cases r with
        | start_recording _ _ _ _ => exact ⟨rfl, rfl⟩
        | stop_recording => exact ⟨rfl, rfl⟩
        | feedback _ _ =>
          simp only [settleRequest, showFeedback]
          exact ⟨(foldl_items_fields _ _).2.2.2.2.1, (foldl_items_fields _ _).2.2.1⟩
        | retry => exact ⟨rfl, rfl⟩
  | intervalFire h =>
    simp only [step]
    split <;> exact ⟨rfl, rfl⟩
  | transcript_update t f => cases f <;> exact ⟨rfl, rfl⟩
  | confidence_update c => exact ⟨rfl, rfl⟩
  | edit f v => cases f <;> exact ⟨rfl, rfl⟩

theorem TimerInv_step (s : State) (e : Event) (hinv : TimerInv s) : TimerInv (step s e) := by
  by_cases h1 : e = Event.startClick
  · subst h1
    exact startButtonClick_timers s hinv
  · by_cases h2 : e = Event.stopClick
    · subst h2
      have h := stopButtonClick_timers s hinv
      show TimerInv (stopButtonClick s)
      constructor
      · intro a ha
        rw [h.1] at ha
        simp at ha
      · rw [h.1]
        simp
    · have h := timers_step s e h1 h2
      unfold TimerInv
      rw [h.1, h.2]
      exact hinv

theorem TimerInv_run (s : State) (es : List Event) (hinv : TimerInv s) :
    TimerInv (run s es) := by
  induction es generalizing s with
  | nil => exact hinv
  | cons e es ih => exact ih (step s e) (TimerInv_step s e hinv)

theorem TimerInv_pageLoad (dom : Dom) : TimerInv (pageLoad dom) := by
  constructor
  · intro a ha
    simp [pageLoad] at ha
  · simp [pageLoad]

theorem TimerInv_length (s : State) (hinv : TimerInv s) : s.intervals.length ≤ 1 := by
  obtain ⟨h1, h2⟩ := hinv
  cases hi : s.intervals with
  | nil => simp
  | cons a l =>
    cases l with
    | nil => simp
    | cons b l =>
      exfalso
      rw [hi] at h1 h2
      have ha := h1 a (by simp)
      have hb := h1 b (by simp)
      rw [ha] at hb
      have hab : a = b := by simpa using hb
      subst hab
      simp at h2

/-- One simulated second adds the number of scheduled timers to `timeElapsed`
and leaves the timers as they are. -/
theorem advanceSecond_spec (s : State) (hinv : TimerInv s) :
    (advanceSecond s).timeElapsed = s.timeElapsed + s.intervals.length ∧
    (advanceSecond s).intervals = s.intervals ∧
    (advanceSecond s).timerInterval = s.timerInterval := by
  have hlen := TimerInv_length s hinv
  unfold advanceSecond
  cases hi : s.intervals with
  | nil => simp [hi]
  | cons a l =>
    cases l with
    | cons b l => rw [hi] at hlen; simp at hlen
    | nil =>
      simp only [List.foldl_cons, List.foldl_nil, step, hi, List.mem_singleton, if_true]
      exact ⟨rfl, hi, rfl⟩

theorem advanceSeconds_spec (s : State) (hinv : TimerInv s) (j : Nat) :
    (advanceSeconds j s).timeElapsed = s.timeElapsed + j * s.intervals.length ∧
    (advanceSeconds j s).intervals = s.intervals ∧
    (advanceSeconds j s).timerInterval = s.timerInterval := by
  induction j with
  | zero => simp [advanceSeconds]
  | succ j ih =>
    have hinv2 : TimerInv (advanceSeconds j s) := by
      unfold TimerInv
      rw [ih.2.1, ih.2.2]
      exact hinv
    have h := advanceSecond_spec (advanceSeconds j s) hinv2
    simp only [advanceSeconds]
    rw [h.1, h.2.1, h.2.2, ih.1, ih.2.1, ih.2.2]
    refine ⟨?_, rfl, rfl⟩
    rw [Nat.succ_mul, Nat.add_assoc]

/-- A start click with a usable filename leaves exactly one scheduled timer
and resets the elapsed time; the filename input is untouched. -/
theorem startClick_one_timer (s : State) (hinv : TimerInv s)
    (hf : jsTrim s.dom.filenameValue ≠ "") :
    (step s Event.startClick).intervals.length = 1 ∧ (step s Event.startClick).timeElapsed = 0 ∧
    (step s Event.startClick).dom.filenameValue = s.dom.filenameValue := by
  have hs : step s Event.startClick = startTimer
      { s with
        pending := s.pending ++ [Request.start_recording s.dom.filenameValue s.dom.phrasesValue
          s.dom.languageValue s.dom.altLanguageValue],
        dom := { s.dom with recordingStatusText := "Status: Recording..." } } := by
    simp only [step, startButtonClick, hf, if_false]
  have h := startTimer_timers
      { s with
        pending := s.pending ++ [Request.start_recording s.dom.filenameValue s.dom.phrasesValue
          s.dom.languageValue s.dom.altLanguageValue],
        dom := { s.dom with recordingStatusText := "Status: Recording..." } } hinv
  rw [hs, h.1, h.2.2.1, h.2.2.2]
  exact ⟨rfl, rfl, rfl⟩

theorem startClicks_one_timer (s : State) (hinv : TimerInv s)
    (hf : jsTrim s.dom.filenameValue ≠ "") (n : Nat) (hn : 0 < n) :
    (run s (List.replicate n Event.startClick)).intervals.length = 1 ∧
    (run s (List.replicate n Event.startClick)).timeElapsed = 0 := by
  induction n generalizing s with
  | zero => exact absurd hn (Nat.lt_irrefl 0)
  | succ n ih =>
    have h := startClick_one_timer s hinv hf
    rw [List.replicate_succ, run_cons]
    cases n with
    | zero => exact ⟨h.1, h.2.1⟩
    | succ n =>
      exact ih (step s Event.startClick) (TimerInv_step s _ hinv) (by rw [h.2.2]; exact hf)
        (Nat.succ_pos n)

/-- C7: in every state reached from page load by any sequence of events
(start clicks, stop clicks and timer firings among them) at most one interval
timer is scheduled, and it is the one whose handle `timerInterval` holds; a
simulated second therefore adds at most 1 to `timeElapsed`; and after any
number n ≥ 1 of consecutive start clicks with a usable filename, `timeElapsed`
restarts at 0 and every simulated second adds exactly 1, whatever n is. -/
theorem at_most_one_interval_timer (dom : Dom) (es : List Event) :
    (run (pageLoad dom) es).intervals.length ≤ 1 ∧
    (∀ h ∈ (run (pageLoad dom) es).intervals, (run (pageLoad dom) es).timerInterval = some h) ∧
    (advanceSecond (run (pageLoad dom) es)).timeElapsed ≤ (run (pageLoad dom) es).timeElapsed + 1 ∧
    (∀ n j : Nat, 0 < n → jsTrim (run (pageLoad dom) es).dom.filenameValue ≠ "" →
      (advanceSeconds j (run (run (pageLoad dom) es)
          (List.replicate n Event.startClick))).timeElapsed = j ∧
      (advanceSeconds (j + 1) (run (run (pageLoad dom) es)
          (List.replicate n Event.startClick))).timeElapsed =
        (advanceSeconds j (run (run (pageLoad dom) es)
          (List.replicate n Event.startClick))).timeElapsed + 1) := by
  have hinv : TimerInv (run (pageLoad dom) es) := TimerInv_run _ es (TimerInv_pageLoad dom)
  have hlen := TimerInv_length _ hinv
  refine ⟨hlen, hinv.1, ?_, ?_⟩
  · rw [(advanceSecond_spec _ hinv).1]
    exact Nat.add_le_add_left hlen _
  · intro n j hn hf
    have h1 := startClicks_one_timer _ hinv hf n hn
    have hinv2 : TimerInv (run (run (pageLoad dom) es) (List.replicate n Event.startClick)) :=
      TimerInv_run _ _ hinv
    have hj := (advanceSeconds_spec _ hinv2 j).1
    have hj1 := (advanceSeconds_spec _ hinv2 (j + 1)).1
    rw [hj, hj1, h1.1, h1.2]
    constructor <;> omega

/-- C7 for two start clicks on a fresh page with the filename "take1": the
third simulated second brings `timeElapsed` from 2 to 3. -/
theorem at_most_one_interval_timer_witness :
    (advanceSeconds 2 (run (run (pageLoad blankDom) [Event.edit InputField.filename "take1"])
        (List.replicate 2 Event.startClick))).timeElapsed = 2 ∧
    (advanceSeconds (2 + 1) (run (run (pageLoad blankDom) [Event.edit InputField.filename "take1"])
        (List.replicate 2 Event.startClick))).timeElapsed =
      (advanceSeconds 2 (run (run (pageLoad blankDom) [Event.edit InputField.filename "take1"])
        (List.replicate 2 Event.startClick))).timeElapsed + 1 :=
  (at_most_one_interval_timer blankDom [Event.edit InputField.filename "take1"]).2.2.2 2 2
    (by decide) (by decide)

/-! ## Feedback rendering -/

/-- C8 (counterexample): a response whose `gpt_text` is present but empty is
rendered as the fallback literal, not as `gpt_text`. -/
theorem showFeedback_empty_gpt_text_renders_fallback :
    (showFeedback { gpt_text := some "", grammar_issues := some [] }
        (pageLoad blankDom)).dom.readTranscriptText = "No improvements available." ∧
    (showFeedback { gpt_text := some "", grammar_issues := some [] }
        (pageLoad blankDom)).dom.readTranscriptText ≠ "" := by
  constructor
  · rfl
  · decide

/-- C8 (amended): `showFeedback` renders `gpt_text` when it is present and not
empty, and the literal "No improvements available." when it is absent, null
or empty; it renders one list item per entry of `grammar_issues`, in order,
and none when `grammar_issues` is absent or empty; it shows both sections;
the response with null `gpt_text` and no issues renders the literal and an
empty list. -/
theorem showFeedback_renders (data : ResponseData) (s : State) :
    (∀ t : String, data.gpt_text = some t → t ≠ "" →
        (showFeedback data s).dom.readTranscriptText = t) ∧
    (data.gpt_text = none ∨ data.gpt_text = some "" →
        (showFeedback data s).dom.readTranscriptText = "No improvements available.") ∧
    (showFeedback data s).dom.grammarItems = (data.grammar_issues.getD []).map issueText ∧
    ((showFeedback data s).dom.grammarItems.length = (data.grammar_issues.getD []).length) ∧
    (data.grammar_issues = none ∨ data.grammar_issues = some [] →
        (showFeedback data s).dom.grammarItems = []) ∧
    ((showFeedback data s).dom.readTranscriptSectionDisplay = "block" ∧
      (showFeedback data s).dom.grammarFeedbackSectionDisplay = "block") ∧
    ((showFeedback { gpt_text := none, grammar_issues := some [] } s).dom.readTranscriptText =
        "No improvements available." ∧
      (showFeedback { gpt_text := none, grammar_issues := some [] } s).dom.grammarItems = []) := by
  have hitems : (showFeedback data s).dom.grammarItems =
      (data.grammar_issues.getD []).map issueText := by
    simp only [showFeedback]
    have h := (foldl_items_fields (data.grammar_issues.getD [])
      { s with dom := { s.dom with
          readTranscriptText :=
            (match data.gpt_text with
              | some t => if t = "" then "No improvements available." else t
              | none => "No improvements available."),
          grammarItems := [] } }).2.2.2.2.2.2.2.2.2.2.1
    simpa using h
  have htext : (showFeedback data s).dom.readTranscriptText =
      (match data.gpt_text with
        | some t => if t = "" then "No improvements available." else t
        | none => "No improvements available.") := by
    simp only [showFeedback]
    have h := (foldl_items_fields (data.grammar_issues.getD [])
      { s with dom := { s.dom with
          readTranscriptText :=
            (match data.gpt_text with
              | some t => if t = "" then "No improvements available." else t
              | none => "No improvements available."),
          grammarItems := [] } }).2.2.2.2.2.2.2.2.2.2.2.1
    simpa using h
  refine ⟨?_, ?_, hitems, ?_, ?_, ⟨rfl, rfl⟩, rfl, rfl⟩
  · intro t ht hne
    rw [htext, ht]
    simp [hne]
  · intro h
    rw [htext]
    rcases h with h | h <;> simp [h]
  · rw [hitems, List.length_map]
  · intro h
    rw [hitems]
    rcases h with h | h <;> simp [h]

/-- C8 (amended) at a response with an improved text and one issue. -/
theorem showFeedback_renders_witness :
    (showFeedback ⟨some "I am fine.", some [⟨"Agreement", [⟨"am"⟩, ⟨"was"⟩]⟩]⟩
      (pageLoad blankDom)).dom.readTranscriptText = "I am fine." :=
  (showFeedback_renders ⟨some "I am fine.", some [⟨"Agreement", [⟨"am"⟩, ⟨"was"⟩]⟩]⟩
    (pageLoad blankDom)).1 "I am fine." rfl (by decide)

/-! ## Start control after a stop -/

/-- C9 (counterexample): on a fresh page with the filename "take1", after a
start click, its accepted response, a stop click and the accepted stop
response, the start control is enabled although no retry has taken place. -/
theorem start_enabled_after_stop_response :
    (run (pageLoad blankDom) [Event.edit InputField.filename "take1", Event.startClick,
        Event.settle 0 (Outcome.resolved ⟨none, none⟩)]).dom.startDisabled = true ∧
    (run (pageLoad blankDom) [Event.edit InputField.filename "take1", Event.startClick,
        Event.settle 0 (Outcome.resolved ⟨none, none⟩)]).dom.stopDisabled = false ∧
    (run (pageLoad blankDom) [Event.edit InputField.filename "take1", Event.startClick,
        Event.settle 0 (Outcome.resolved ⟨none, none⟩), Event.stopClick]).dom.startDisabled
          = true ∧
    (run (pageLoad blankDom) [Event.edit InputField.filename "take1", Event.startClick,
        Event.settle 0 (Outcome.resolved ⟨none, none⟩), Event.stopClick,
        Event.settle 0 (Outcome.resolved ⟨none, none⟩)]).dom.startDisabled = false := by
  refine ⟨?_, ?_, ?_, ?_⟩ <;> decide

theorem startDisabled_step (s : State) (e : Event) (hd : s.dom.startDisabled = true)
    (hn : acceptsStop s e = false) : (step s e).dom.startDisabled = true := by
  cases e with
  | startClick =>
    simp only [step, startButtonClick, startTimer, setInterval, clearInterval]
    split <;> [exact hd; (split <;> exact hd)]
  | stopClick =>
    simp only [step, stopButtonClick, stopTimer, clearInterval]
    split <;> exact hd
  | readyClick => exact hd
  | retryClick => exact hd
  | settle i o =>
    simp only [step]
    cases h : s.pending.get? i with
    | none => exact hd
    | some r =>
      cases o with
      | rejected => exact hd
      | resolved d =>
        cases r with
        | start_recording _ _ _ _ => rfl
        | stop_recording =>
          simp only [acceptsStop, h, decide_True] at hn
          exact absurd hn (by decide)
        | feedback _ _ =>
          simp only [settleRequest, showFeedback]
          rw [(foldl_items_fields _ _).2.2.2.2.2.2.2.2.1]
          exact hd
        | retry => exact hd
  | intervalFire h =>
    simp only [step]
    split <;> exact hd
  | transcript_update t f => cases f <;> exact hd
  | confidence_update c => exact hd
  | edit f v => cases f <;> exact hd

theorem startDisabled_run (s : State) (es : List Event) (hd : s.dom.startDisabled = true)
    (hn : noStopAccepted s es = true) : (run s es).dom.startDisabled = true := by
  induction es generalizing s with
  | nil => exact hd
  | cons e es ih =>
    simp only [noStopAccepted, Bool.and_eq_true, Bool.not_eq_true'] at hn
    rw [run_cons]
    exact ih (step s e) (startDisabled_step s e hd hn.1) hn.2

/-- C9 (amended): once the start control is disabled (as the accepted start
response leaves it), it stays disabled through the stop click and every other
event for as long as no stop response has been accepted; the accepted stop
response enables it again; the accepted retry response leaves it as it is. -/
theorem start_disabled_until_stop_response (s : State) (es : List Event) :
    (s.dom.startDisabled = true → noStopAccepted s es = true →
        (run s es).dom.startDisabled = true) ∧
    (∀ (i : Nat) (data : ResponseData), s.pending.get? i = some Request.stop_recording →
        (step s (Event.settle i (Outcome.resolved data))).dom.startDisabled = false) ∧
    (∀ (i : Nat) (data : ResponseData), s.pending.get? i = some Request.retry →
        (step s (Event.settle i (Outcome.resolved data))).dom.startDisabled
          = s.dom.startDisabled) := by
  refine ⟨startDisabled_run s es, ?_, ?_⟩
  · intro i data h
    simp only [step, h, settleRequest]
  · intro i data h
    simp only [step, h, settleRequest, resetUI]

/-- C9 (amended) for a recording session that is stopped, asks for feedback
and retries while the stop response is still outstanding. -/
theorem start_disabled_until_stop_response_witness :
    (run (run (pageLoad blankDom) [Event.edit InputField.filename "take1", Event.startClick,
        Event.settle 0 (Outcome.resolved ⟨none, none⟩)])
      [Event.stopClick, Event.readyClick, Event.settle 1 (Outcome.resolved ⟨none, none⟩),
        Event.retryClick, Event.settle 1 (Outcome.resolved ⟨none, none⟩)]).dom.startDisabled
      = true :=
  (start_disabled_until_stop_response
    (run (pageLoad blankDom) [Event.edit InputField.filename "take1", Event.startClick,
        Event.settle 0 (Outcome.resolved ⟨none, none⟩)])
    [Event.stopClick, Event.readyClick, Event.settle 1 (Outcome.resolved ⟨none, none⟩),
        Event.retryClick, Event.settle 1 (Outcome.resolved ⟨none, none⟩)]).1
    (by decide) (by decide)


/-! ## Binary64 arithmetic on integers -/

theorem bitLengthAux_fuel (n : Nat) : ∀ fuel : Nat, n ≤ fuel →
    bitLengthAux fuel n = bitLengthAux n n := by
  induction n using Nat.strong_induction_on with
  | _ n ih =>
    intro fuel hf
    cases n with
    | zero => cases fuel <;> simp [bitLengthAux]
    | succ n =>
      cases fuel with
      | zero => omega
      | succ fuel =>
        simp only [bitLengthAux, Nat.succ_ne_zero, if_false]
        have hlt : (n + 1) / 2 < n + 1 := Nat.div_lt_self (Nat.succ_pos n) (by decide)
        rw [ih ((n + 1) / 2) hlt fuel (by omega), ih ((n + 1) / 2) hlt n (by omega)]

theorem bitLength_zero : bitLength 0 = 0 := rfl

theorem bitLength_step (n : Nat) (h : 0 < n) : bitLength n = bitLength (n / 2) + 1 := by
  unfold bitLength
  cases n with
  | zero => omega
  | succ n =>
    simp only [bitLengthAux, Nat.succ_ne_zero, if_false]
    rw [bitLengthAux_fuel ((n + 1) / 2) n (by omega)]

theorem bitLength_bounds (n : Nat) (h : 0 < n) :
    2 ^ (bitLength n - 1) ≤ n ∧ n < 2 ^ bitLength n := by
  induction n using Nat.strong_induction_on with
  | _ n ih =>
    rw [bitLength_step n h]
    by_cases h1 : n / 2 = 0
    · have hn : n = 1 := by omega
      subst hn
      simp [bitLength_zero]
    · have hpos : 0 < n / 2 := Nat.pos_of_ne_zero h1
      have hlt : n / 2 < n := Nat.div_lt_self h (by decide)
      obtain ⟨hlo, hhi⟩ := ih (n / 2) hlt hpos
      have hL : 1 ≤ bitLength (n / 2) := by
        rw [bitLength_step _ hpos]; omega
      have e1 : bitLength (n / 2) + 1 - 1 = (bitLength (n / 2) - 1) + 1 := by omega
      rw [e1, Nat.pow_succ, Nat.pow_succ]
      constructor <;> omega

theorem bitLength_pos (n : Nat) (h : 0 < n) : 1 ≤ bitLength n := by
  rw [bitLength_step n h]; omega

theorem bitLength_double (n : Nat) (h : 0 < n) : bitLength (n * 2) = bitLength n + 1 := by
  rw [bitLength_step (n * 2) (by omega), Nat.mul_div_cancel n (by decide)]

theorem bitLength_mul_pow (n i : Nat) (h : 0 < n) : bitLength (n * 2 ^ i) = bitLength n + i := by
  induction i with
  | zero => simp
  | succ i ih =>
    rw [Nat.pow_succ, ← Nat.mul_assoc, bitLength_double _ (Nat.mul_pos h (Nat.two_pow_pos _)), ih]
    omega

theorem bitLength_le_of_lt (n k : Nat) (h : n < 2 ^ k) : bitLength n ≤ k := by
  by_cases h0 : n = 0
  · subst h0; simp [bitLength_zero]
  · have hb := (bitLength_bounds n (Nat.pos_of_ne_zero h0)).1
    have hlt : 2 ^ (bitLength n - 1) < 2 ^ k := Nat.lt_of_le_of_lt hb h
    have := (Nat.pow_lt_pow_iff_right (by decide : 1 < 2)).mp hlt
    omega

theorem bitLength_ge_of_le (n k : Nat) (h : 2 ^ k ≤ n) : k + 1 ≤ bitLength n := by
  have hpos : 0 < n := Nat.lt_of_lt_of_le (Nat.two_pow_pos _) h
  have hb := (bitLength_bounds n hpos).2
  have hlt : 2 ^ k < 2 ^ bitLength n := Nat.lt_of_le_of_lt h hb
  have := (Nat.pow_lt_pow_iff_right (by decide : 1 < 2)).mp hlt
  omega

/-- Rounding a value `v * 2^i / 2^i` with `0 < v < 2^53`: the result is `v`
itself, in normalised form. -/
theorem roundToDouble_exact (negative : Bool) (v i : Nat) (h0 : 0 < v) (h : v < 2 ^ 53) :
    roundToDouble negative (v * 2 ^ i) (2 ^ i) =
      JSNumber.finite negative (v * 2 ^ (53 - bitLength v)) ((bitLength v : Int) - 53) := by
  have hL1 := bitLength_pos v h0
  have hL2 := bitLength_le_of_lt v 53 h
  obtain ⟨hlo, hhi⟩ := bitLength_bounds v h0
  have hpi : 0 < 2 ^ i := Nat.two_pow_pos _
  have hnum : bitLength (v * 2 ^ i) = bitLength v + i := bitLength_mul_pow v i h0
  have hden : bitLength (2 ^ i) = i + 1 := by
    have := bitLength_mul_pow 1 i (by decide)
    simpa [bitLength_step 1 (by decide), bitLength_zero, Nat.add_comm] using this
  have hb0 : ((bitLength (v * 2 ^ i) : Int) - (bitLength (2 ^ i) : Int)) =
      ((bitLength v - 1 : Nat) : Int) := by
    rw [hnum, hden]; omega
  unfold roundToDouble
  simp only [hb0]
  have hden0 : ¬ (2 ^ i = 0) := Nat.pos_iff_ne_zero.mp hpi
  have hnum0 : ¬ (v * 2 ^ i = 0) := Nat.pos_iff_ne_zero.mp (Nat.mul_pos h0 hpi)
  simp only [hden0, hnum0, if_false]
  have hnn : (0 : Int) ≤ ((bitLength v - 1 : Nat) : Int) := Int.ofNat_nonneg _
  simp only [hnn, if_true, Int.toNat_ofNat]
  have hat : 2 ^ i * 2 ^ (bitLength v - 1) ≤ v * 2 ^ i := by
    rw [Nat.mul_comm]; exact Nat.mul_le_mul_right _ hlo
  simp only [hat, decide_True, if_true]
  have he : max (((bitLength v - 1 : Nat) : Int) - 52) (-1074) = -((53 - bitLength v : Nat) : Int) := by
    omega
  simp only [he]
  have hm53 : v * 2 ^ (53 - bitLength v) < 2 ^ 53 := by
    calc v * 2 ^ (53 - bitLength v) < 2 ^ bitLength v * 2 ^ (53 - bitLength v) :=
          Nat.mul_lt_mul_of_pos_right hhi (Nat.two_pow_pos _)
      _ = 2 ^ 53 := by rw [← Nat.pow_add]; congr 1; omega
  have hmpos : 0 < v * 2 ^ (53 - bitLength v) := Nat.mul_pos h0 (Nat.two_pow_pos _)
  by_cases hj : bitLength v = 53
  · have hneg : ¬ (-((53 - bitLength v : Nat) : Int) < 0) := by omega
    simp only [hneg, if_false]
    have e0 : (-((53 - bitLength v : Nat) : Int)).toNat = 0 := by omega
    simp only [e0, Nat.pow_zero, Nat.mul_one]
    have hq : v * 2 ^ i / 2 ^ i = v := Nat.mul_div_cancel v hpi
    have hr : v * 2 ^ i % 2 ^ i = 0 := Nat.mul_mod_left v (2 ^ i)
    have hz : 53 - bitLength v = 0 := by omega
    simp only [hz, Nat.pow_zero, Nat.mul_one] at hm53 hmpos ⊢
    simp only [hq, hr, Nat.mul_zero, hpi, if_true]
    have h1 : ¬ (v = 2 ^ 53) := by omega
    have h2 : ¬ ((971 : Int) < -((0 : Nat) : Int)) := by omega
    have h3 : ¬ (v = 0) := by omega
    simp only [h1, if_false, h2, h3]
    congr 1
    omega
  · have hneg : (-((53 - bitLength v : Nat) : Int) < 0) := by omega
    simp only [hneg, if_true]
    have e0 : (- -((53 - bitLength v : Nat) : Int)).toNat = 53 - bitLength v := by omega
    simp only [e0]
    have hq : v * 2 ^ i * 2 ^ (53 - bitLength v) / 2 ^ i = v * 2 ^ (53 - bitLength v) := by
      rw [Nat.mul_right_comm]; exact Nat.mul_div_cancel _ hpi
    have hr : v * 2 ^ i * 2 ^ (53 - bitLength v) % 2 ^ i = 0 := by
      rw [Nat.mul_right_comm]; exact Nat.mul_mod_left _ _
    simp only [hq, hr, Nat.mul_zero, hpi, if_true]
    have h1 : ¬ (v * 2 ^ (53 - bitLength v) = 2 ^ 53) := by omega
    have h2 : ¬ ((971 : Int) < -((53 - bitLength v : Nat) : Int)) := by omega
    have h3 : ¬ (v * 2 ^ (53 - bitLength v) = 0) := by omega
    simp only [h1, if_false, h2, h3]
    congr 1
    omega

theorem ofNat_zero : JSNumber.ofNat 0 = JSNumber.finite false 0 0 := rfl

theorem ofNat_eq (n : Nat) (h0 : 0 < n) (h : n < 2 ^ 53) :
    JSNumber.ofNat n =
      JSNumber.finite false (n * 2 ^ (53 - bitLength n)) ((bitLength n : Int) - 53) := by
  have := roundToDouble_exact false n 0 h0 h
  simpa [JSNumber.ofNat] using this

/-- Rounding is insensitive to a common power of two in numerator and
denominator, for integer values below `2^53`. -/
theorem roundToDouble_scaled (v i : Nat) (h : v < 2 ^ 53) :
    roundToDouble false (v * 2 ^ i) (2 ^ i) = JSNumber.ofNat v := by
  by_cases h0 : v = 0
  · subst h0
    have hden0 : ¬ (2 ^ i = 0) := Nat.pos_iff_ne_zero.mp (Nat.two_pow_pos i)
    simp [roundToDouble, hden0, JSNumber.ofNat]
  · have hpos := Nat.pos_of_ne_zero h0
    rw [roundToDouble_exact false v i hpos h, ofNat_eq v hpos h]

theorem ofNat_inj (a b : Nat) (ha : a < 2 ^ 53) (hb : b < 2 ^ 53)
    (h : JSNumber.ofNat a = JSNumber.ofNat b) : a = b := by
  by_cases ha0 : a = 0
  · by_cases hb0 : b = 0
    · rw [ha0, hb0]
    · exfalso
      have hbpos := Nat.pos_of_ne_zero hb0
      rw [ha0, ofNat_zero, ofNat_eq b hbpos hb] at h
      injection h with _ hm _
      have : 0 < b * 2 ^ (53 - bitLength b) := Nat.mul_pos hbpos (Nat.two_pow_pos _)
      omega
  · have hapos := Nat.pos_of_ne_zero ha0
    by_cases hb0 : b = 0
    · exfalso
      rw [hb0, ofNat_zero, ofNat_eq a hapos ha] at h
      injection h with _ hm _
      have : 0 < a * 2 ^ (53 - bitLength a) := Nat.mul_pos hapos (Nat.two_pow_pos _)
      omega
    · have hbpos := Nat.pos_of_ne_zero hb0
      rw [ofNat_eq a hapos ha, ofNat_eq b hbpos hb] at h
      injection h with _ hm he
      have hL : bitLength a = bitLength b := by omega
      rw [hL] at hm
      exact Nat.eq_of_mul_eq_mul_right (Nat.two_pow_pos _) hm

/-- An integer of at least `2^53` rounds to an infinity or to a value with a
positive binary exponent. -/
theorem ofNat_large (c : Nat) (hc : 2 ^ 53 ≤ c) :
    JSNumber.ofNat c = JSNumber.infinity false ∨
      ∃ (m : Nat) (e : Int), JSNumber.ofNat c = JSNumber.finite false m e ∧ 1 ≤ e := by
  have hL := bitLength_ge_of_le c 53 hc
  have hcpos : 0 < c := Nat.lt_of_lt_of_le (Nat.two_pow_pos 53) hc
  obtain ⟨hlo, _⟩ := bitLength_bounds c hcpos
  have hone : bitLength 1 = 1 := by decide
  have hb0 : ((bitLength c : Int) - (bitLength 1 : Int)) = ((bitLength c - 1 : Nat) : Int) := by
    rw [hone]; omega
  unfold JSNumber.ofNat roundToDouble
  simp only [hb0]
  have hnum0 : ¬ (c = 0) := by omega
  simp only [hnum0, if_false, Nat.one_ne_zero]
  have hnn : (0 : Int) ≤ ((bitLength c - 1 : Nat) : Int) := Int.ofNat_nonneg _
  simp only [hnn, if_true, Int.toNat_ofNat, Nat.one_mul, hlo, decide_True]
  have he : max (((bitLength c - 1 : Nat) : Int) - 52) (-1074) = ((bitLength c - 53 : Nat) : Int) := by
    omega
  simp only [he]
  have hneg : ¬ (((bitLength c - 53 : Nat) : Int) < 0) := by omega
  simp only [hneg, if_false, Int.toNat_ofNat]
  have hq : 2 ^ 52 ≤ c / 2 ^ (bitLength c - 53) := by
    rw [Nat.le_div_iff_mul_le (Nat.two_pow_pos _), ← Nat.pow_add]
    have : 52 + (bitLength c - 53) = bitLength c - 1 := by omega
    rw [this]; exact hlo
  generalize c / 2 ^ (bitLength c - 53) = q at hq
  generalize c % 2 ^ (bitLength c - 53) = r
  generalize hm : (if 2 * r < 2 ^ (bitLength c - 53) then q
    else if 2 ^ (bitLength c - 53) < 2 * r then q + 1 else if q % 2 = 0 then q else q + 1) = m
  have hmq : 2 ^ 52 ≤ m := by
    rw [← hm]; split_ifs <;> omega
  by_cases h53 : m = 2 ^ 53
  · simp only [h53, if_true]
    by_cases h971 : (971 : Int) < ((bitLength c - 53 : Nat) : Int) + 1
    · left; rw [if_pos h971]
    · right
      refine ⟨2 ^ 52, ((bitLength c - 53 : Nat) : Int) + 1, ?_, by omega⟩
      rw [if_neg h971, if_neg (by decide)]
  · simp only [h53, if_false]
    by_cases h971 : (971 : Int) < ((bitLength c - 53 : Nat) : Int)
    · left; rw [if_pos h971]
    · right
      refine ⟨m, ((bitLength c - 53 : Nat) : Int), ?_, by omega⟩
      rw [if_neg h971, if_neg (by omega)]

theorem ofNat_ne_of_large (c n : Nat) (hc : 2 ^ 53 ≤ c) (hn : n < 2 ^ 53) :
    JSNumber.ofNat c ≠ JSNumber.ofNat n := by
  intro heq
  have hform : ∃ (m : Nat) (e : Int), JSNumber.ofNat n = JSNumber.finite false m e ∧ e ≤ 0 := by
    by_cases h0 : n = 0
    · exact ⟨0, 0, by rw [h0, ofNat_zero], le_refl _⟩
    · have := bitLength_le_of_lt n 53 hn
      exact ⟨_, _, ofNat_eq n (Nat.pos_of_ne_zero h0) hn, by omega⟩
  obtain ⟨m, e, hne, hele⟩ := hform
  rcases ofNat_large c hc with h | ⟨m2, e2, h, hge⟩
  · rw [h, hne] at heq; cases heq
  · rw [h, hne] at heq
    injection heq with _ _ hee
    omega

/-! ## Decimal digits -/

theorem decimalDigitsAux_fuel (n : Nat) : ∀ (fuel fuel2 : Nat) (acc : List Char),
    n < fuel → n < fuel2 →
    decimalDigitsAux fuel n acc = decimalDigitsAux fuel2 n [] ++ acc := by
  induction n using Nat.strong_induction_on with
  | _ n ih =>
    intro fuel fuel2 acc h1 h2
    cases fuel with
    | zero => omega
    | succ fuel =>
      cases fuel2 with
      | zero => omega
      | succ fuel2 =>
        by_cases h0 : n / 10 = 0
        · simp [decimalDigitsAux, h0]
        · simp only [decimalDigitsAux, h0, if_false]
          have hlt : n / 10 < n := by omega
          rw [ih (n / 10) hlt fuel (n / 10 + 1) _ (by omega) (by omega),
            ih (n / 10) hlt fuel2 (n / 10 + 1) [Char.ofNat (48 + n % 10)] (by omega) (by omega)]
          simp

theorem decimalDigits_lt_ten (n : Nat) (h : n < 10) : decimalDigits n = [digitChar n] := by
  have h0 : n / 10 = 0 := by omega
  have hm : n % 10 = n := by omega
  simp [decimalDigits, decimalDigitsAux, h0, hm, digitChar]

theorem decimalDigits_step (n : Nat) (h : 10 ≤ n) :
    decimalDigits n = decimalDigits (n / 10) ++ [digitChar (n % 10)] := by
  have h0 : ¬ (n / 10 = 0) := by omega
  unfold decimalDigits
  simp only [decimalDigitsAux, h0, if_false]
  rw [decimalDigitsAux_fuel (n / 10) n (n / 10 + 1) _ (by omega) (by omega)]
  rfl

theorem decimalDigits_mul_pow (m t : Nat) (h : 0 < m) :
    decimalDigits (m * 10 ^ t) = decimalDigits m ++ List.replicate t '0' := by
  induction t with
  | zero => simp
  | succ t ih =>
    have hpos : 0 < m * 10 ^ t := Nat.mul_pos h (Nat.pos_pow_of_pos t (by decide))
    rw [Nat.pow_succ, ← Nat.mul_assoc, decimalDigits_step _ (by omega),
      Nat.mul_div_cancel _ (by decide), Nat.mul_mod_left, ih, List.append_assoc]
    congr 1
    rw [List.replicate_succ']
    rfl

theorem decimalDigits_length_le (k : Nat) : ∀ n : Nat, n < 10 ^ (k + 1) →
    (decimalDigits n).length ≤ k + 1 := by
  induction k with
  | zero =>
    intro n h
    rw [decimalDigits_lt_ten n (by simpa using h)]
    simp
  | succ k ih =>
    intro n h
    by_cases h10 : n < 10
    · rw [decimalDigits_lt_ten n h10]; simp
    · rw [decimalDigits_step n (by omega)]
      have : n / 10 < 10 ^ (k + 1) := by
        rw [Nat.div_lt_iff_lt_mul (by decide)]
        rw [Nat.pow_succ] at h
        exact h
      have := ih (n / 10) this
      simp only [List.length_append, List.length_singleton]
      omega

theorem decimalDigits_length_pos (n : Nat) : 0 < (decimalDigits n).length := by
  by_cases h10 : n < 10
  · rw [decimalDigits_lt_ten n h10]; simp
  · rw [decimalDigits_step n (by omega)]; simp

theorem dropWhile_zero_split (ys : List Char) :
    ys = List.replicate (ys.length - (ys.dropWhile (fun c => c == '0')).length) '0' ++
      ys.dropWhile (fun c => c == '0') := by
  induction ys with
  | nil => simp
  | cons a l ih =>
    by_cases ha : (a == '0') = true
    · have ha2 : a = '0' := by simpa using ha
      have hle : (l.dropWhile (fun c => c == '0')).length ≤ l.length :=
        (List.dropWhile_sublist _).length_le
      have hd : (a :: l).dropWhile (fun c => c == '0') = l.dropWhile (fun c => c == '0') := by
        simp only [List.dropWhile_cons, ha, if_true]
      rw [hd]
      have e : (a :: l).length - (l.dropWhile (fun c => c == '0')).length =
          (l.length - (l.dropWhile (fun c => c == '0')).length) + 1 := by
        simp only [List.length_cons]; omega
      rw [e, List.replicate_succ, List.cons_append, ← ih, ha2]
    · have hd : (a :: l).dropWhile (fun c => c == '0') = a :: l := by
        simp only [List.dropWhile_cons, ha, if_false]
        simp
      rw [hd]
      simp

theorem stripTrailingZeros_split (xs : List Char) :
    stripTrailingZeros xs ++
      List.replicate (xs.length - (stripTrailingZeros xs).length) '0' = xs := by
  have h := dropWhile_zero_split xs.reverse
  have h2 := congrArg List.reverse h
  simp only [List.reverse_reverse, List.reverse_append, List.reverse_replicate,
    List.length_reverse] at h2
  unfold stripTrailingZeros
  simp only [List.length_reverse]
  exact h2.symm

/-! ## Number-to-string on integers -/

theorem shortestAux_ofNat (n j : Nat) (hn0 : 0 < n) (hn : n < 2 ^ 53) :
    ∀ (fuel k : Nat), 1 ≤ k → k ≤ (decimalDigits n).length →
      (decimalDigits n).length - k < fuel →
      ∃ t : Nat, 10 ^ t ∣ n ∧
        shortestAux (JSNumber.ofNat n) (n * 2 ^ j) (2 ^ j) ((decimalDigits n).length : Int) fuel k
          = (stripTrailingZeros (decimalDigits (n / 10 ^ t)), ((decimalDigits n).length : Int)) := by
  intro fuel
  induction fuel with
  | zero => intro k _ _ h; omega
  | succ fuel ih =>
    intro k hk1 hkp hfuel
    have ht : (((decimalDigits n).length : Int) - (k : Int)) =
        (((decimalDigits n).length - k : Nat) : Int) := by omega
    have hneg : ¬ ((((decimalDigits n).length - k : Nat) : Int) < 0) := by omega
    have hpj : 0 < 2 ^ j := Nat.two_pow_pos j
    have hpt : 0 < 10 ^ ((decimalDigits n).length - k) := Nat.pos_pow_of_pos _ (by decide)
    have hq : n * 2 ^ j / (2 ^ j * 10 ^ ((decimalDigits n).length - k)) =
        n / 10 ^ ((decimalDigits n).length - k) := by
      rw [Nat.mul_comm (2 ^ j)]
      exact Nat.mul_div_mul_right _ _ hpj
    have hr : n * 2 ^ j % (2 ^ j * 10 ^ ((decimalDigits n).length - k)) =
        n % 10 ^ ((decimalDigits n).length - k) * 2 ^ j := by
      rw [Nat.mul_comm (2 ^ j)]
      exact Nat.mul_mod_mul_right _ _ _
    have hfold : ∀ c : Nat, roundToDouble false c 1 = JSNumber.ofNat c := fun _ => rfl
    rw [shortestAux]
    simp only [ht, hneg, if_false, Int.toNat_ofNat, hq, hr, hfold]
    generalize hT : (decimalDigits n).length - k = T at *
    by_cases hd : 10 ^ T ∣ n
    · have hlo : n / 10 ^ T * 10 ^ T = n := Nat.div_mul_cancel hd
      have hmod : n % 10 ^ T = 0 := Nat.mod_eq_zero_of_dvd hd
      have hlt : 2 * (0 * 2 ^ j) < 2 ^ j * 10 ^ T := by
        simp only [Nat.zero_mul, Nat.mul_zero]
        exact Nat.mul_pos hpj hpt
      have hmpos : 0 < n / 10 ^ T := by
        rcases Nat.eq_zero_or_pos (n / 10 ^ T) with h | h
        · rw [h, Nat.zero_mul] at hlo; omega
        · exact h
      have hlen : (decimalDigits n).length = (decimalDigits (n / 10 ^ T)).length + T := by
        have := decimalDigits_mul_pow (n / 10 ^ T) T hmpos
        rw [hlo] at this
        rw [this, List.length_append, List.length_replicate]
      refine ⟨T, hd, ?_⟩
      simp only [hlo, hmod, hlt, decide_True, Bool.true_or, Bool.and_self, if_true]
      congr 1
      omega
    · have hle : n / 10 ^ T * 10 ^ T ≤ n := Nat.div_mul_le_self n (10 ^ T)
      have hne : n / 10 ^ T * 10 ^ T ≠ n := fun h => hd ⟨n / 10 ^ T, by rw [Nat.mul_comm]; exact h.symm⟩
      have hgt : n < (n / 10 ^ T + 1) * 10 ^ T := by
        rw [Nat.mul_comm]; exact Nat.lt_mul_div_succ n hpt
      have hokLo : ¬ (JSNumber.ofNat (n / 10 ^ T * 10 ^ T) = JSNumber.ofNat n) := by
        intro h
        exact hne (ofNat_inj _ _ (by omega) hn h)
      have hokHi : ¬ (JSNumber.ofNat ((n / 10 ^ T + 1) * 10 ^ T) = JSNumber.ofNat n) := by
        intro h
        by_cases hc : (n / 10 ^ T + 1) * 10 ^ T < 2 ^ 53
        · have := ofNat_inj _ _ hc hn h
          omega
        · exact ofNat_ne_of_large _ n (by omega) hn h
      simp only [hokLo, hokHi, decide_False, Bool.false_and, Bool.false_eq_true, if_false]
      have hT0 : T ≠ 0 := by
        intro h0
        apply hd
        rw [h0, Nat.pow_zero]
        exact Nat.one_dvd n
      exact ih (k + 1) (by omega) (by omega) (by omega)

theorem stripTrailingZeros_length_le (xs : List Char) :
    (stripTrailingZeros xs).length ≤ xs.length := by
  have h := congrArg List.length (stripTrailingZeros_split xs)
  rw [List.length_append] at h
  omega

/-- Number-to-string of an integer below `2^53` is its decimal representation. -/
theorem numberToString_ofNat (n : Nat) (hn : n < 2 ^ 53) :
    numberToString (JSNumber.ofNat n) = String.mk (decimalDigits n) := by
  by_cases h0 : n = 0
  · subst h0; decide
  · have hn0 := Nat.pos_of_ne_zero h0
    have hL1 := bitLength_pos n hn0
    have hL2 := bitLength_le_of_lt n 53 hn
    have hMpos : 0 < n * 2 ^ (53 - bitLength n) := Nat.mul_pos hn0 (Nat.two_pow_pos _)
    have hM0 : ¬ (n * 2 ^ (53 - bitLength n) = 0) := by omega
    have hnum : magNum (n * 2 ^ (53 - bitLength n)) ((bitLength n : Int) - 53) =
        n * 2 ^ (53 - bitLength n) := by
      unfold magNum
      by_cases hl : bitLength n = 53
      · have : ¬ (((bitLength n : Int) - 53) < 0) := by omega
        have e0 : ((bitLength n : Int) - 53).toNat = 0 := by omega
        simp only [this, if_false, e0, Nat.pow_zero, Nat.mul_one]
      · have : (((bitLength n : Int) - 53) < 0) := by omega
        simp only [this, if_true]
    have hden : magDen ((bitLength n : Int) - 53) = 2 ^ (53 - bitLength n) := by
      unfold magDen
      by_cases hl : bitLength n = 53
      · have : ¬ (((bitLength n : Int) - 53) < 0) := by omega
        rw [if_neg this, hl]
        rfl
      · have : (((bitLength n : Int) - 53) < 0) := by omega
        have e0 : (-((bitLength n : Int) - 53)).toNat = 53 - bitLength n := by omega
        simp only [this, if_true, e0]
    have hp : decimalPoint (n * 2 ^ (53 - bitLength n)) (2 ^ (53 - bitLength n)) =
        ((decimalDigits n).length : Int) := by
      unfold decimalPoint
      have hle : 2 ^ (53 - bitLength n) ≤ n * 2 ^ (53 - bitLength n) :=
        Nat.le_mul_of_pos_left _ hn0
      simp only [hle, if_true, Nat.mul_div_cancel _ (Nat.two_pow_pos _)]
    have hplen : (decimalDigits n).length ≤ 16 :=
      decimalDigits_length_le 15 n (Nat.lt_of_lt_of_le hn (by decide))
    have hppos := decimalDigits_length_pos n
    obtain ⟨t, hdvd, hloop⟩ := shortestAux_ofNat n (53 - bitLength n) hn0 hn 17 1 (le_refl 1)
      hppos (by omega)
    have hlo : n / 10 ^ t * 10 ^ t = n := Nat.div_mul_cancel hdvd
    have hmpos : 0 < n / 10 ^ t := by
      rcases Nat.eq_zero_or_pos (n / 10 ^ t) with h | h
      · rw [h, Nat.zero_mul] at hlo; omega
      · exact h
    have hdig : decimalDigits n = decimalDigits (n / 10 ^ t) ++ List.replicate t '0' := by
      have := decimalDigits_mul_pow (n / 10 ^ t) t hmpos
      rw [hlo] at this
      exact this
    have hlen : (decimalDigits n).length = (decimalDigits (n / 10 ^ t)).length + t := by
      rw [hdig, List.length_append, List.length_replicate]
    have hsd : shortestDigits (n * 2 ^ (53 - bitLength n)) ((bitLength n : Int) - 53) =
        (stripTrailingZeros (decimalDigits (n / 10 ^ t)), ((decimalDigits n).length : Int)) := by
      unfold shortestDigits
      simp only [hnum, hden, hp, roundToDouble_scaled n _ hn]
      exact hloop
    rw [ofNat_eq n hn0 hn]
    unfold numberToString
    simp only [hM0, if_false, hsd]
    have hsl := stripTrailingZeros_length_le (decimalDigits (n / 10 ^ t))
    have hsplit := stripTrailingZeros_split (decimalDigits (n / 10 ^ t))
    generalize hS : stripTrailingZeros (decimalDigits (n / 10 ^ t)) = S at *
    unfold layoutDigits
    have hc : ((S.length : Int) ≤ ((decimalDigits n).length : Int) ∧
        ((decimalDigits n).length : Int) ≤ 21) := by omega
    simp only [hc, and_self, if_true]
    have hk : (((decimalDigits n).length : Int) - (S.length : Int)).toNat =
        ((decimalDigits (n / 10 ^ t)).length - S.length) + t := by omega
    rw [hk, List.replicate_add]
    have hfin : (if false = true then ['-'] else []) ++ (S ++
        (List.replicate ((decimalDigits (n / 10 ^ t)).length - S.length) '0' ++
          List.replicate t '0')) = decimalDigits n := by
      rw [hdig, ← hsplit]
      simp
    rw [hfin]

/-! ## Minutes and seconds of an integer number of seconds -/

theorem magNum_one_nonpos (L : Nat) (h : L ≤ 53) : magNum 1 ((L : Int) - 53) = 1 := by
  unfold magNum
  by_cases hl : L = 53
  · have : ¬ (((L : Int) - 53) < 0) := by omega
    have e0 : ((L : Int) - 53).toNat = 0 := by omega
    simp only [this, if_false, e0, Nat.pow_zero, Nat.mul_one]
  · have : (((L : Int) - 53) < 0) := by omega
    simp only [this, if_true]

theorem magDen_nonpos (L : Nat) (h : L ≤ 53) : magDen ((L : Int) - 53) = 2 ^ (53 - L) := by
  unfold magDen
  by_cases hl : L = 53
  · have : ¬ (((L : Int) - 53) < 0) := by omega
    rw [if_neg this, hl]
    rfl
  · have : (((L : Int) - 53) < 0) := by omega
    have e0 : (-((L : Int) - 53)).toNat = 53 - L := by omega
    simp only [this, if_true, e0]

/-- The operator `%` by 60 on an integer below `2^53` is the integer remainder. -/
theorem mod_sixty_ofNat (s : Nat) (hs : s < 2 ^ 53) :
    (JSNumber.ofNat s).mod (JSNumber.finite false 60 0) = JSNumber.ofNat (s % 60) := by
  by_cases h0 : s = 0
  · subst h0; decide
  · have hs0 := Nat.pos_of_ne_zero h0
    have hL2 := bitLength_le_of_lt s 53 hs
    have hM0 : ¬ (s * 2 ^ (53 - bitLength s) = 0) :=
      Nat.pos_iff_ne_zero.mp (Nat.mul_pos hs0 (Nat.two_pow_pos _))
    rw [ofNat_eq s hs0 hs]
    unfold JSNumber.mod
    have h60 : ¬ ((60 : Nat) = 0) := by decide
    have hn0 : magNum 1 0 = 1 := by decide
    have hd0 : magDen 0 = 1 := by decide
    simp only [h60, hM0, if_false, magNum_one_nonpos _ hL2, magDen_nonpos _ hL2, hn0, hd0,
      Nat.mul_one]
    rw [Nat.mul_mod_mul_right]
    exact roundToDouble_scaled (s % 60) _ (by omega)

/-- Shape of the rounded quotient `s / 60`: a mantissa that is the quotient
scaled by `2^J`, rounded down or (only from the upper half) up, with at
least five fractional bits. -/
theorem div_sixty_round (s j : Nat) (hs0 : 0 < s) (hj : bitLength s + j = 53) :
    ∃ J m : Nat, 5 ≤ J ∧
      (m = s * 2 ^ J / 60 ∨ (m = s * 2 ^ J / 60 + 1 ∧ 30 ≤ s * 2 ^ J % 60)) ∧
      roundToDouble false (s * 2 ^ j) (60 * 2 ^ j) =
        (if m = 2 ^ 53 then JSNumber.finite false (2 ^ 52) (-(J : Int) + 1)
         else if m = 0 then JSNumber.finite false 0 0
         else JSNumber.finite false m (-(J : Int))) := by
  have hpj : 0 < 2 ^ j := Nat.two_pow_pos j
  have hnum : bitLength (s * 2 ^ j) = 53 := by rw [bitLength_mul_pow s j hs0, hj]
  have h60 : bitLength 60 = 6 := by decide
  have hden : bitLength (60 * 2 ^ j) = 6 + j := by
    rw [bitLength_mul_pow 60 j (by decide), h60]
  have hb0 : ((bitLength (s * 2 ^ j) : Int) - (bitLength (60 * 2 ^ j) : Int)) = 47 - (j : Int) := by
    rw [hnum, hden]; omega
  have hjle : j ≤ 52 := by
    have := bitLength_pos s hs0
    omega
  unfold roundToDouble
  have hden0 : ¬ (60 * 2 ^ j = 0) := Nat.pos_iff_ne_zero.mp (Nat.mul_pos (by decide) hpj)
  have hnum0 : ¬ (s * 2 ^ j = 0) := Nat.pos_iff_ne_zero.mp (Nat.mul_pos hs0 hpj)
  simp only [hb0, hden0, hnum0, if_false]
  generalize (if 0 ≤ 47 - (j : Int) then decide (60 * 2 ^ j * 2 ^ (47 - (j : Int)).toNat ≤ s * 2 ^ j)
    else decide (60 * 2 ^ j ≤ s * 2 ^ j * 2 ^ (-(47 - (j : Int))).toNat)) = A
  obtain ⟨J, hJ5, hJ⟩ : ∃ J : Nat, 5 ≤ J ∧
      max ((if A = true then 47 - (j : Int) else 47 - (j : Int) - 1) - 52) (-1074) = -(J : Int) := by
    cases A
    · exact ⟨j + 6, by omega, by simp only [Bool.false_eq_true, if_false]; omega⟩
    · exact ⟨j + 5, by omega, by simp only [if_true]; omega⟩
  simp only [hJ]
  have hneg : (-(J : Int) < 0) := by omega
  have e0 : (- -(J : Int)).toNat = J := by omega
  simp only [hneg, if_true, e0]
  have hq : s * 2 ^ j * 2 ^ J / (60 * 2 ^ j) = s * 2 ^ J / 60 := by
    rw [Nat.mul_right_comm]; exact Nat.mul_div_mul_right _ _ hpj
  have hr : s * 2 ^ j * 2 ^ J % (60 * 2 ^ j) = s * 2 ^ J % 60 * 2 ^ j := by
    rw [Nat.mul_right_comm]; exact Nat.mul_mod_mul_right _ _ _
  simp only [hq, hr]
  generalize hm : (if 2 * (s * 2 ^ J % 60 * 2 ^ j) < 60 * 2 ^ j then s * 2 ^ J / 60
    else if 60 * 2 ^ j < 2 * (s * 2 ^ J % 60 * 2 ^ j) then s * 2 ^ J / 60 + 1
    else if s * 2 ^ J / 60 % 2 = 0 then s * 2 ^ J / 60 else s * 2 ^ J / 60 + 1) = m
  have hmc : m = s * 2 ^ J / 60 ∨ (m = s * 2 ^ J / 60 + 1 ∧ 30 ≤ s * 2 ^ J % 60) := by
    rw [← hm]
    by_cases h1 : 2 * (s * 2 ^ J % 60 * 2 ^ j) < 60 * 2 ^ j
    · left; rw [if_pos h1]
    · rw [if_neg h1]
      have hge : 30 ≤ s * 2 ^ J % 60 := by
        have h2 : 60 * 2 ^ j ≤ (2 * (s * 2 ^ J % 60)) * 2 ^ j := by
          rw [Nat.mul_assoc]; omega
        have := Nat.le_of_mul_le_mul_right h2 hpj
        omega
      by_cases h2 : 60 * 2 ^ j < 2 * (s * 2 ^ J % 60 * 2 ^ j)
      · right; rw [if_pos h2]; exact ⟨rfl, hge⟩
      · rw [if_neg h2]
        by_cases h3 : s * 2 ^ J / 60 % 2 = 0
        · left; rw [if_pos h3]
        · right; rw [if_neg h3]; exact ⟨rfl, hge⟩
  refine ⟨J, m, hJ5, hmc, ?_⟩
  by_cases h53 : m = 2 ^ 53
  · have h971 : ¬ ((971 : Int) < -(J : Int) + 1) := by omega
    simp only [h53, if_true, h971, if_false]
    rw [if_neg (by decide)]
  · have h971 : ¬ ((971 : Int) < -(J : Int)) := by omega
    simp only [h53, if_false, h971]

/-- Rounding the quotient by 60 down gives the integer quotient, for integers
below `2^53`. -/
theorem floor_div_sixty_ofNat (s : Nat) (hs : s < 2 ^ 53) :
    ((JSNumber.ofNat s).div (JSNumber.finite false 60 0)).floor = JSNumber.ofNat (s / 60) := by
  by_cases h0 : s = 0
  · subst h0; decide
  · have hs0 := Nat.pos_of_ne_zero h0
    have hL1 := bitLength_pos s hs0
    have hL2 := bitLength_le_of_lt s 53 hs
    rw [ofNat_eq s hs0 hs]
    unfold JSNumber.div
    have h60 : ¬ ((60 : Nat) = 0) := by decide
    have hn0 : magNum 1 0 = 1 := by decide
    have hd0 : magDen 0 = 1 := by decide
    have hbne : (false != false) = false := rfl
    simp only [h60, if_false, magNum_one_nonpos _ hL2, magDen_nonpos _ hL2, hn0, hd0,
      Nat.mul_one, hbne]
    obtain ⟨J, m, hJ5, hmc, hround⟩ := div_sixty_round s (53 - bitLength s) hs0 (by omega)
    rw [hround]
    -- the quotient scaled by `2^J`
    have hP : 32 ≤ 2 ^ J := by
      calc 32 = 2 ^ 5 := by decide
        _ ≤ 2 ^ J := Nat.pow_le_pow_right (by decide) hJ5
    have hsplit : s * 2 ^ J = 60 * (s / 60 * 2 ^ J) + s % 60 * 2 ^ J := by
      have h1 : s = 60 * (s / 60) + s % 60 := (Nat.div_add_mod s 60).symm
      calc s * 2 ^ J = (60 * (s / 60) + s % 60) * 2 ^ J := by rw [← h1]
        _ = 60 * (s / 60 * 2 ^ J) + s % 60 * 2 ^ J := by rw [Nat.add_mul, Nat.mul_assoc]
    have hX : s % 60 * 2 ^ J ≤ 59 * 2 ^ J := Nat.mul_le_mul_right _ (by omega)
    have hdiv : m / 2 ^ J = s / 60 := by
      apply Nat.div_eq_of_lt_le
      · generalize s * 2 ^ J = SP at hsplit hmc
        generalize s / 60 * 2 ^ J = QP at hsplit ⊢
        generalize s % 60 * 2 ^ J = X at hsplit hX
        omega
      · rw [Nat.succ_mul]
        generalize s * 2 ^ J = SP at hsplit hmc
        generalize s / 60 * 2 ^ J = QP at hsplit ⊢
        generalize s % 60 * 2 ^ J = X at hsplit hX
        generalize 2 ^ J = P at hP hX ⊢
        omega
    have hfold : ∀ c : Nat, roundToDouble false c 1 = JSNumber.ofNat c := fun _ => rfl
    by_cases h53 : m = 2 ^ 53
    · rw [if_pos h53]
      unfold JSNumber.floor
      have hc : ¬ ((2 : Nat) ^ 52 = 0 ∨ (0 : Int) ≤ -(J : Int) + 1) := by
        intro h; rcases h with h | h
        · exact absurd h (by decide)
        · omega
      have e1 : (-(-(J : Int) + 1)).toNat = J - 1 := by omega
      simp only [hc, if_false, e1, Bool.false_eq_true, hfold]
      congr 1
      rw [← hdiv, h53]
      have hJ1 : J = (J - 1) + 1 := by omega
      have h2 : (2 : Nat) ^ 53 / 2 ^ J = 2 ^ 52 / 2 ^ (J - 1) := by
        rw [hJ1, Nat.pow_succ 2 (J - 1), show (2 : Nat) ^ 53 = 2 ^ 52 * 2 from by decide]
        simpa using Nat.mul_div_mul_right (2 ^ 52) (2 ^ (J - 1)) (by decide : 0 < 2)
      exact h2.symm
    · rw [if_neg h53]
      by_cases hm0 : m = 0
      · rw [if_pos hm0]
        have : s / 60 = 0 := by rw [← hdiv, hm0, Nat.zero_div]
        rw [this]
        decide
      · rw [if_neg hm0]
        unfold JSNumber.floor
        have hc : ¬ (m = 0 ∨ (0 : Int) ≤ -(J : Int)) := by
          intro h; rcases h with h | h
          · exact hm0 h
          · omega
        have e1 : (- -(J : Int)).toNat = J := by omega
        simp only [hc, if_false, e1, Bool.false_eq_true, hfold, hdiv]
/-! ## Time label -/

theorem digitChar_facts : ∀ d : Nat, d < 10 →
    (digitChar d).isDigit = true ∧ (digitChar d).toNat - 48 = d ∧
    (digitChar d = '0' → d = 0) := by
  decide

theorem decimalValue_append_singleton (ds : List Char) (c : Char) :
    decimalValue (ds ++ [c]) = decimalValue ds * 10 + (c.toNat - 48) := by
  simp [decimalValue, List.foldl_append]

/-- With enough fuel the digit loop prepends the decimal of `n`. -/
theorem decimalDigitsAux_spec (fuel n : Nat) (acc : List Char) (h : n < fuel) :
    ∃ ds : List Char, decimalDigitsAux fuel n acc = ds ++ acc ∧ IsDecimalOf ds n := by
  induction fuel generalizing n acc with
  | zero => exact absurd h (Nat.not_lt_zero n)
  | succ fuel ih =>
    have hmod : n % 10 < 10 := Nat.mod_lt n (by decide)
    obtain ⟨hdig, hval, hzero⟩ := digitChar_facts (n % 10) hmod
    by_cases h0 : n / 10 = 0
    · refine ⟨[digitChar (n % 10)], ?_, ?_⟩
      · simp [decimalDigitsAux, h0, digitChar]
      · refine ⟨by simp, ?_, ?_, ?_⟩
        · intro c hc
          rw [List.mem_singleton] at hc
          rw [hc]
          exact hdig
        · intro hh
          simp only [List.head?_cons, Option.some.injEq] at hh
          rw [hh]
        · show 0 * 10 + ((digitChar (n % 10)).toNat - 48) = n
          rw [hval]
          omega
    · have hlt : n / 10 < fuel := by omega
      obtain ⟨ds, hds, hne, hall, hlead, hv⟩ := ih (n / 10) (digitChar (n % 10) :: acc) hlt
      refine ⟨ds ++ [digitChar (n % 10)], ?_, ?_⟩
      · simp only [decimalDigitsAux, h0, if_false]
        rw [show Char.ofNat (48 + n % 10) = digitChar (n % 10) from rfl, hds]
        simp
      · refine ⟨by simp, ?_, ?_, ?_⟩
        · intro c hc
          rw [List.mem_append, List.mem_singleton] at hc
          rcases hc with hc | hc
          · exact hall c hc
          · rw [hc]; exact hdig
        · intro hh
          exfalso
          cases ds with
          | nil => exact hne rfl
          | cons a l =>
            simp only [List.cons_append, List.head?_cons, Option.some.injEq] at hh
            have h1 := hlead (by simp [hh])
            rw [h1] at hv
            have : decimalValue ['0'] = 0 := by decide
            rw [this] at hv
            exact h0 hv.symm
        · rw [decimalValue_append_singleton, hv, hval]
          omega

theorem decimalDigits_spec (n : Nat) : IsDecimalOf (decimalDigits n) n := by
  obtain ⟨ds, hds, h⟩ := decimalDigitsAux_spec (n + 1) n [] (Nat.lt_succ_self n)
  unfold decimalDigits
  rw [hds, List.append_nil]
  exact h

theorem padStart_two_zero (ds : List Char) : padStart ds 2 ['0'] = leftPadZeros ds 2 := by
  unfold padStart leftPadZeros
  cases ds with
  | nil => decide
  | cons a l =>
    cases l with
    | nil => simp [List.replicate]
    | cons b l =>
      have h : 2 ≤ (a :: b :: l).length := by simp
      simp [h]

theorem padStart_decimalDigits_lt_100 : ∀ n : Nat, n < 100 →
    padStart (decimalDigits n) 2 ['0'] = [digitChar (n / 10), digitChar (n % 10)] := by
  decide

/-- On integers below `2^53` the script's Number arithmetic is exact: the
label is built from the integer quotient and remainder by 60. -/
theorem formatTime_ofNat (s : Nat) (hs : s < 2 ^ 53) :
    formatTime (JSNumber.ofNat s) =
      String.mk (padStart (decimalDigits (s / 60)) 2 ['0'] ++
        ':' :: padStart (decimalDigits (s % 60)) 2 ['0']) := by
  have h1 : s / 60 < 2 ^ 53 := Nat.lt_of_le_of_lt (Nat.div_le_self s 60) hs
  have h2 : s % 60 < 2 ^ 53 := Nat.lt_of_le_of_lt (Nat.mod_le s 60) hs
  unfold formatTime
  simp only [floor_div_sixty_ofNat s hs, mod_sixty_ofNat s hs, numberToString_ofNat _ h1,
    numberToString_ofNat _ h2]

/-- C10 (counterexample): 67553994410557496 = 60 * 2^50 + 56 is an integer
Number; its quotient by 60 is 1125899906842624 with remainder 56, but the
division rounds up and `formatTime` prints 1125899906842625 minutes, which is
not the padded decimal of the quotient; and for 6 * 10^22 seconds the minutes
are printed in exponent notation. -/
theorem formatTime_large_seconds_not_decimal :
    JSNumber.ofNat 67553994410557496 = JSNumber.finite false 8444249301319687 3 ∧
    8444249301319687 * 2 ^ 3 = 67553994410557496 ∧
    67553994410557496 / 60 = 1125899906842624 ∧ 67553994410557496 % 60 = 56 ∧
    formatTime (JSNumber.ofNat 67553994410557496) = "1125899906842625:56" ∧
    formatTime (JSNumber.ofNat 67553994410557496) ≠
      String.mk (leftPadZeros (decimalDigits (67553994410557496 / 60)) 2 ++ [':'] ++
        leftPadZeros (decimalDigits (67553994410557496 % 60)) 2) ∧
    formatTime (JSNumber.ofNat (6 * 10 ^ 22)) = "1e+21:00" := by
  refine ⟨?_, ?_, ?_, ?_, ?_, ?_, ?_⟩ <;> decide!

/-- C10 (amended): for every integer number of seconds s below 2^53,
`formatTime` is the decimal of s / 60 (rounded down) left-padded with '0' to
at least two characters, then ':', then the decimal of s mod 60 left-padded
with '0' to two characters; and for s < 6000 the label has exactly five
characters mm:ss, with ss < 60 and mm * 60 + ss = s. -/
theorem formatTime_is_padded_minutes_and_seconds (s : Nat) (hs : s < 2 ^ 53) :
    (∃ dm dsec : List Char, IsDecimalOf dm (s / 60) ∧ IsDecimalOf dsec (s % 60) ∧
        (leftPadZeros dsec 2).length = 2 ∧ 2 ≤ (leftPadZeros dm 2).length ∧
        formatTime (JSNumber.ofNat s) =
          String.mk (leftPadZeros dm 2 ++ [':'] ++ leftPadZeros dsec 2)) ∧
    (s < 6000 → (formatTime (JSNumber.ofNat s)).length = 5 ∧
      ∃ mm ss : Nat, mm < 100 ∧ ss < 60 ∧ mm * 60 + ss = s ∧
        formatTime (JSNumber.ofNat s) = String.mk [digitChar (mm / 10), digitChar (mm % 10), ':',
          digitChar (ss / 10), digitChar (ss % 10)]) := by
  have hsec : s % 60 < 100 := by omega
  have hfmt : formatTime (JSNumber.ofNat s) =
      String.mk (leftPadZeros (decimalDigits (s / 60)) 2 ++ [':'] ++
        leftPadZeros (decimalDigits (s % 60)) 2) := by
    simp [formatTime_ofNat s hs, padStart_two_zero]
  constructor
  · refine ⟨decimalDigits (s / 60), decimalDigits (s % 60), decimalDigits_spec _,
      decimalDigits_spec _, ?_, ?_, hfmt⟩
    · rw [← padStart_two_zero, padStart_decimalDigits_lt_100 _ hsec]
      rfl
    · simp only [leftPadZeros, List.length_append, List.length_replicate]
      omega
  · intro h
    have hmin : s / 60 < 100 := by omega
    have hf : formatTime (JSNumber.ofNat s) =
        String.mk [digitChar (s / 60 / 10), digitChar (s / 60 % 10), ':',
          digitChar (s % 60 / 10), digitChar (s % 60 % 10)] := by
      simp [formatTime_ofNat s hs, padStart_decimalDigits_lt_100 _ hmin,
        padStart_decimalDigits_lt_100 _ hsec]
    refine ⟨?_, s / 60, s % 60, hmin, by omega, by omega, hf⟩
    rw [hf]
    rfl

/-- C10 (amended) at 754 seconds: the label is "12:34". -/
theorem formatTime_is_padded_minutes_and_seconds_witness :
    (formatTime (JSNumber.ofNat 754)).length = 5 ∧
      ∃ mm ss : Nat, mm < 100 ∧ ss < 60 ∧ mm * 60 + ss = 754 ∧
        formatTime (JSNumber.ofNat 754) =
          String.mk [digitChar (mm / 10), digitChar (mm % 10), ':',
            digitChar (ss / 10), digitChar (ss % 10)] :=
  (formatTime_is_padded_minutes_and_seconds 754 (by decide)).2 (by decide)

end SpeakSmart
